import Mathlib

set_option maxRecDepth 100000

/-!
Verification development for the `wix-blog-export` repository.

The repository's core subsystem (image acquisition with retry/backoff,
content rewriting, multi-format export, report generation) is shallowly
embedded here.  Strings are modelled as `List Char`; JS `Map`s as
association lists with insertion-order semantics; the network is modelled
as an oracle `Nat → FetchRes` consumed one request at a time; machine
integers do not occur (all arithmetic is on `Nat`/`Int`); MD5 is
implemented bit-faithfully over `Nat` with explicit `% 2^32`.

Each embedded definition carries a comment naming the source function it
translates.
-/

/-- Convenience abbreviation: JS strings are modelled as lists of chars. -/
abbrev JStr := List Char

/-- JS `\s` whitespace class, restricted to its ASCII members plus NBSP
(the only characters exercised anywhere in this development). -/
def isJsSpace (c : Char) : Bool :=
  c = ' ' || c = '\t' || c = '\n' || c = '\r' || c = '\x0b' || c = '\x0c' || c = ' '

/-! ## Data model (src/lib/types.ts) -/

/-- JSON values as produced by `response.json()` / consumed by
`JSON.stringify`.  Numbers are restricted to integers: every numeric field
of a post (`minutesToRead`, `viewCount`, ...) is integral, and integer
doubles below 2^53 serialize/parse exactly. -/
inductive Json where
  | null : Json
  | bool (b : Bool) : Json
  | num (n : Int) : Json
  | str (s : JStr) : Json
  | arr (elems : List Json) : Json
  | obj (fields : List (JStr × Json)) : Json

/-- `status?: 'PUBLISHED' | 'DRAFT' | 'SCHEDULED'` from types.ts. -/
inductive PostStatus where
  | published | draft | scheduled
deriving DecidableEq

/-- `media.wixMedia.image` of a post. -/
structure WixImage where
  url : JStr
  altText : Option JStr
  height : Option Nat
  width : Option Nat
deriving DecidableEq

/-- `media.wixMedia` of a post. -/
structure WixMediaBox where
  image : Option WixImage
deriving DecidableEq

/-- `media` of a post. -/
structure PostMedia where
  wixMedia : Option WixMediaBox
  displayed : Bool
deriving DecidableEq

/-- `WixBlogPost` from src/lib/types.ts, including the locally added
augmentation fields `localImagePaths` and `coverImageLocalPath`.
Optional (`?:`) fields are `Option`s; `seoData: any` is an opaque JSON bag. -/
structure WixBlogPost where
  id : JStr
  title : JStr
  excerpt : JStr
  contentText : Option JStr
  url : Option JStr
  firstPublishedDate : JStr
  lastPublishedDate : JStr
  status : Option PostStatus
  slug : JStr
  featured : Bool
  categoryIds : List JStr
  tagIds : List JStr
  relatedPostIds : List JStr
  membersOnly : Option Bool
  hashtags : List JStr
  commentingEnabled : Bool
  minutesToRead : Nat
  viewCount : Option Nat
  likeCount : Option Nat
  language : JStr
  media : Option PostMedia
  seoData : Option Json
  localImagePaths : Option (List JStr)
  coverImageLocalPath : Option JStr

/-- `ExportFormat` from src/lib/types.ts. -/
inductive ExportFormat where
  | markdown | json | csv | all
deriving DecidableEq

/-- `ExportOptions` from src/lib/types.ts. -/
structure ExportOptions where
  format : ExportFormat
  includeContent : Bool
  includeImages : Bool
  downloadImages : Bool
  outputDir : JStr
  filename : Option JStr
  customer : Option JStr
  bundleTitle : Option JStr
  bundleZip : Bool
  concurrency : Nat
  retry : Nat
  timeoutMs : Nat
  dryRun : Bool
deriving DecidableEq

/-- `ImageDownloadResult` from src/lib/types.ts. -/
structure ImageDownloadResult where
  postId : JStr
  originalUrl : JStr
  localPath : Option JStr
  success : Bool
  error : Option JStr
deriving DecidableEq

/-! ## MD5 (the `crypto.createHash('md5')` primitive used by
`generateImageHash` in src/lib/utils.ts).  Implemented over `Nat` with
explicit reduction mod 2^32; bytes are `Nat`s below 256. -/

/-- Reduce to a 32-bit word. -/
def u32 (n : Nat) : Nat := n % 4294967296

/-- 32-bit bitwise complement (valid for inputs below 2^32). -/
def not32 (n : Nat) : Nat := 4294967295 - n % 4294967296

/-- 32-bit left rotation. -/
def rotl32 (x s : Nat) : Nat :=
  u32 (x <<< s) ||| (x % 4294967296) >>> (32 - s)

/-- The 64 MD5 sine-derived round constants. -/
def md5K : List Nat :=
  [3614090360, 3905402710, 606105819, 3250441966, 4118548399, 1200080426,
   2821735955, 4249261313, 1770035416, 2336552879, 4294925233, 2304563134,
   1804603682, 4254626195, 2792965006, 1236535329, 4129170786, 3225465664,
   643717713, 3921069994, 3593408605, 38016083, 3634488961, 3889429448,
   568446438, 3275163606, 4107603335, 1163531501, 2850285829, 4243563512,
   1735328473, 2368359562, 4294588738, 2272392833, 1839030562, 4259657740,
   2763975236, 1272893353, 4139469664, 3200236656, 681279174, 3936430074,
   3572445317, 76029189, 3654602809, 3873151461, 530742520, 3299628645,
   4096336452, 1126891415, 2878612391, 4237533241, 1700485571, 2399980690,
   4293915773, 2240044497, 1873313359, 4264355552, 2734768916, 1309151649,
   4149444226, 3174756917, 718787259, 3951481745]

/-- The 64 MD5 per-round left-rotation amounts. -/
def md5S : List Nat :=
  [7, 12, 17, 22, 7, 12, 17, 22, 7, 12, 17, 22, 7, 12, 17, 22,
   5, 9, 14, 20, 5, 9, 14, 20, 5, 9, 14, 20, 5, 9, 14, 20,
   4, 11, 16, 23, 4, 11, 16, 23, 4, 11, 16, 23, 4, 11, 16, 23,
   6, 10, 15, 21, 6, 10, 15, 21, 6, 10, 15, 21, 6, 10, 15, 21]

/-- One MD5 round: mixing function and message-word index per round. -/
def md5FG (i b c d : Nat) : Nat × Nat :=
  if i < 16 then ((b &&& c) ||| (not32 b &&& d), i)
  else if i < 32 then ((d &&& b) ||| (not32 d &&& c), (5 * i + 1) % 16)
  else if i < 48 then (b ^^^ c ^^^ d, (3 * i + 5) % 16)
  else (c ^^^ (b ||| not32 d), (7 * i) % 16)

/-- Execute MD5 rounds `i, i+1, ...` on one 16-word chunk `m`. -/
def md5Rounds (m : List Nat) : Nat → Nat × Nat × Nat × Nat → Nat × Nat × Nat × Nat
  | 0, st => st
  | k + 1, (a, b, c, d) =>
    let i := 64 - (k + 1)
    let fg := md5FG i b c d
    let x := u32 (a + fg.1 + (md5K.getD i 0) + (m.getD fg.2 0))
    let a2 := u32 (b + rotl32 x (md5S.getD i 0))
    md5Rounds m k (d, a2, b, c)

/-- Split a byte list into chunks of 64 (fuel-indexed so that it reduces
definitionally; `chunks64` supplies sufficient fuel). -/
def chunks64F : Nat → List Nat → List (List Nat)
  | 0, _ => []
  | _ + 1, [] => []
  | fuel + 1, x :: xs => ((x :: xs).take 64) :: chunks64F fuel ((x :: xs).drop 64)

/-- Split a byte list into chunks of 64. -/
def chunks64 (l : List Nat) : List (List Nat) := chunks64F l.length l

/-- Four little-endian bytes to one 32-bit word. -/
def word32ofBytes (b0 b1 b2 b3 : Nat) : Nat :=
  b0 + 256 * b1 + 65536 * b2 + 16777216 * b3

/-- A 64-byte chunk as 16 little-endian words. -/
def md5Words (chunk : List Nat) : List Nat :=
  (List.range 16).map fun j =>
    word32ofBytes (chunk.getD (4 * j) 0) (chunk.getD (4 * j + 1) 0)
      (chunk.getD (4 * j + 2) 0) (chunk.getD (4 * j + 3) 0)

/-- MD5 padding: append 0x80, zero-fill to 56 mod 64, then the original
bit length as a 64-bit little-endian quantity. -/
def md5Pad (msg : List Nat) : List Nat :=
  let len := msg.length
  let zeros := (119 - len % 64) % 64
  let bitLen := (len * 8) % 18446744073709551616
  msg ++ [128] ++ List.replicate zeros 0 ++
    (List.range 8).map fun j => bitLen / (256 ^ j) % 256

/-- A 32-bit word as four little-endian bytes. -/
def bytesOfWord32 (w : Nat) : List Nat :=
  [w % 256, w / 256 % 256, w / 65536 % 256, w / 16777216 % 256]

/-- Lowercase hex digit. -/
def hexDigitChar (n : Nat) : Char :=
  if n < 10 then Char.ofNat (48 + n) else Char.ofNat (87 + n)

/-- A byte as two lowercase hex chars. -/
def byteToHex (b : Nat) : List Char := [hexDigitChar (b / 16), hexDigitChar (b % 16)]

/-- Full MD5: byte list to 32-char lowercase hex digest. -/
def md5Hex (msg : List Nat) : JStr :=
  let init : Nat × Nat × Nat × Nat := (1732584193, 4023233417, 2562383102, 271733878)
  let fin := (chunks64 (md5Pad msg)).foldl
    (fun (st : Nat × Nat × Nat × Nat) chunk =>
      let r := md5Rounds (md5Words chunk) 64 st
      (u32 (st.1 + r.1), u32 (st.2.1 + r.2.1), u32 (st.2.2.1 + r.2.2.1),
        u32 (st.2.2.2 + r.2.2.2)))
    init
  ((bytesOfWord32 fin.1 ++ bytesOfWord32 fin.2.1 ++ bytesOfWord32 fin.2.2.1 ++
    bytesOfWord32 fin.2.2.2).map byteToHex).flatten

/-! ## Decimal rendering (JS template-literal interpolation of numbers) -/

/-- Decimal digit as a char. -/
def digitChar (d : Nat) : Char := Char.ofNat (48 + d)

/-- Fuel-indexed decimal rendering of a natural number (most significant
digit first); `natToChars` supplies sufficient fuel. -/
def natToCharsF : Nat → Nat → List Char
  | 0, _ => []
  | fuel + 1, n =>
    if n < 10 then [digitChar n]
    else natToCharsF fuel (n / 10) ++ [digitChar (n % 10)]

/-- Decimal rendering of a natural number, as JS renders an integral
number into a string. -/
def natToChars (n : Nat) : List Char := natToCharsF (n + 1) n

/-- Decimal rendering of an integer. -/
def intToChars (i : Int) : List Char :=
  if i < 0 then '-' :: natToChars i.natAbs else natToChars i.natAbs

/-! ## Path & naming utilities (src/lib/utils.ts) -/

/-- Characters kept by `sanitizeFilename`: `[a-z0-9\-_.]`. -/
def sanitizeKeepChar (c : Char) : Bool :=
  (97 ≤ c.toNat && c.toNat ≤ 122) || (48 ≤ c.toNat && c.toNat ≤ 57) ||
    c = '-' || c = '_' || c = '.'

/-- Collapse runs of dashes to a single dash (the dash-run collapse replace). -/
def collapseDashes (l : List Char) : List Char :=
  l.foldr (fun c acc => if c = '-' && acc.head? = some '-' then acc else c :: acc) []

/-- Strip leading and trailing dashes (`.replace(/^-+|-+$/g, '')`). -/
def trimDashes (l : List Char) : List Char :=
  ((l.dropWhile (fun c => c = '-')).reverse.dropWhile (fun c => c = '-')).reverse

/-- `sanitizeFilename` from src/lib/utils.ts: lowercase, whitespace to
dashes, keep `[a-z0-9\-_.]`, collapse dash runs, trim dashes.  The source
replaces each whitespace *run* by one dash; replacing each whitespace
*char* by a dash is extensionally equal because the later dash-run
collapse merges adjacent dashes. -/
def sanitizeFilename (input : JStr) : JStr :=
  trimDashes (collapseDashes
    (((input.map Char.toLower).map (fun c => if isJsSpace c then '-' else c)).filter
      sanitizeKeepChar))

/-- `generateImageHash` from src/lib/utils.ts: first 8 hex chars of the
MD5 of the content when available, of the URL bytes otherwise (the URL
fallback encodes chars as bytes, exact for ASCII URLs). -/
def generateImageHash (url : JStr) (content : Option (List Nat)) : JStr :=
  match content with
  | some b => (md5Hex b).take 8
  | none => (md5Hex (url.map Char.toNat)).take 8

/-- Embedding of the WHATWG `new URL(u)` parse as exercised by this
repository, restricted to lowercase `http`/`https` URLs (the only ones the
pipeline retains): scheme, then a nonempty host up to `/`, `?` or `#`,
then the pathname up to `?` or `#` (defaulting to `/`).  Other inputs are
parse failures. -/
def parseHttpUrl (u : JStr) : Option (JStr × JStr × JStr) :=
  let afterScheme : JStr → JStr → Option (JStr × JStr × JStr) := fun scheme rest =>
    let host := rest.takeWhile (fun c => c ≠ '/' && c ≠ '?' && c ≠ '#')
    if host.isEmpty then none
    else
      let r2 := rest.drop host.length
      let pathname :=
        match r2 with
        | '/' :: _ => r2.takeWhile (fun c => c ≠ '?' && c ≠ '#')
        | _ => ['/']
      some (scheme, host, pathname)
  match u with
  | 'h' :: 't' :: 't' :: 'p' :: 's' :: ':' :: '/' :: '/' :: rest =>
    afterScheme ("https:".toList) rest
  | 'h' :: 't' :: 't' :: 'p' :: ':' :: '/' :: '/' :: rest =>
    afterScheme ("http:".toList) rest
  | _ => none

/-- `isValidImageUrl` from src/lib/utils.ts: `new URL(url)` parses and the
protocol is `http:` or `https:`. -/
def isValidImageUrl (url : JStr) : Bool := (parseHttpUrl url).isSome

/-- The basename of a pathname (`path.extname` looks only at it). -/
def lastSegment (p : JStr) : JStr := (p.reverse.takeWhile (fun c => c ≠ '/')).reverse

/-- `path.extname` on a basename: from the last dot, unless the dot is
absent or leads the basename. -/
def extnameOf (base : JStr) : JStr :=
  let aft := base.reverse.takeWhile (fun c => c ≠ '.')
  if aft.length = base.length then []
  else
    let dotPos := base.length - 1 - aft.length
    if dotPos = 0 then [] else base.drop dotPos

/-- The recognized image extensions of `getFileExtensionFromUrl`. -/
def validImageExts : List JStr :=
  [".jpg".toList, ".jpeg".toList, ".png".toList, ".gif".toList,
   ".webp".toList, ".svg".toList, ".bmp".toList]

/-- `getFileExtensionFromUrl` from src/lib/utils.ts: lowercased extension
of the URL pathname when it is a recognized image extension, `.jpg`
otherwise (also on URL parse failure). -/
def getFileExtensionFromUrl (url : JStr) : JStr :=
  match parseHttpUrl url with
  | none => ".jpg".toList
  | some (_, _, pathname) =>
    let ext := (extnameOf (lastSegment pathname)).map Char.toLower
    if validImageExts.contains ext then ext else ".jpg".toList

/-- `createSafePath` from src/lib/utils.ts: `path.join` of the parts.
`path.normalize` is the identity on the separator-free parts this
repository joins. -/
def createSafePath (parts : List JStr) : JStr := List.intercalate ("/".toList) parts

/-! ## The inline-image regexes of src/lib/utils.ts

`extractInlineImageUrls` scans with `/!\[.*?\]\((https?:\/\/[^\s)]+)\)/g`
and `rewriteMarkdownImageUrls` with `/!\[([^\]]*)\]\((https?:\/\/[^\s)]+)\)/g`.
Both are embedded as character-list scanners with exact JS regex
semantics: `[^\s)]+` is greedy and cannot backtrack usefully (its class
excludes `)`), `[^\]]*` stops at the first `]`, and the lazy `.*?` of the
extraction regex backtracks past a `]` that is not followed by a
parseable `](url)` tail. -/

/-- Matches `[^\s)]` (a URL character). -/
def isUrlChar (c : Char) : Bool := !(isJsSpace c) && c != ')'

/-- Matches the `[^\s)]+\)` tail of the image regexes; returns the full
captured URL and the text after the closing parenthesis. -/
def matchUrlTail (scheme : JStr) (r : List Char) : Option (JStr × List Char) :=
  let run := r.takeWhile isUrlChar
  match r.dropWhile isUrlChar with
  | ')' :: r3 => if run.isEmpty then none else some (scheme ++ run, r3)
  | _ => none

/-- Matches `https?:\/\/[^\s)]+\)`. -/
def matchHttpUrl (cs : List Char) : Option (JStr × List Char) :=
  match cs with
  | 'h' :: 't' :: 't' :: 'p' :: 's' :: ':' :: '/' :: '/' :: r =>
    matchUrlTail ("https://".toList) r
  | 'h' :: 't' :: 't' :: 'p' :: ':' :: '/' :: '/' :: r =>
    matchUrlTail ("http://".toList) r
  | _ => none

/-- One whole-match attempt of the *rewrite* regex
`!\[([^\]]*)\]\((https?:\/\/[^\s)]+)\)` at the head of the input; returns
(alt text, url, rest after the match). -/
def matchImageRef (cs : List Char) : Option (JStr × JStr × List Char) :=
  match cs with
  | '!' :: '[' :: rest =>
    let alt := rest.takeWhile (fun c => c ≠ ']')
    match rest.dropWhile (fun c => c ≠ ']') with
    | ']' :: '(' :: r2 =>
      match matchHttpUrl r2 with
      | some (url, r3) => some (alt, url, r3)
      | _ => none
    | _ => none
  | _ => none

/-- The text of an inline image reference `![alt](target)`. -/
def refText (alt target : JStr) : JStr :=
  "![".toList ++ alt ++ "](".toList ++ target ++ [')']

/-- Fuel-indexed scan of `String.replace` with the rewrite regex: at each
position try a whole match; on a match emit the replacement (or the
original matched text when the URL has no mapping) and continue after it,
otherwise emit the char and advance one. -/
def rewriteScan : Nat → List (JStr × JStr) → List Char → List Char
  | 0, _, _ => []
  | _ + 1, _, [] => []
  | fuel + 1, m, c :: cs =>
    match matchImageRef (c :: cs) with
    | some (alt, url, rest) =>
      (match m.lookup url with
       | some p => refText alt p
       | none => refText alt url) ++ rewriteScan fuel m rest
    | none => c :: rewriteScan fuel m cs

/-- `rewriteMarkdownImageUrls` from src/lib/utils.ts.  The JS `Map` is an
association list with unique keys; `Map.get` is `List.lookup`. -/
def rewriteMarkdownImageUrls (markdown : JStr) (urlToLocalPath : List (JStr × JStr)) :
    JStr :=
  rewriteScan markdown.length urlToLocalPath markdown

/-- The lazy `.*?\]\((https?:...)\)` search of the *extraction* regex:
finds the shortest alt (its chars match `.`, hence contain no newline)
followed by a `](url)` tail. -/
def extractAltSearch : List Char → Option (JStr × JStr × List Char)
  | [] => none
  | c :: rest =>
    if c = '\n' then none
    else
      match
        (if c = ']' then
          match rest with
          | '(' :: r2 => matchHttpUrl r2
          | _ => none
        else none)
      with
      | some (url, r3) => some ([], url, r3)
      | none => (extractAltSearch rest).map fun p => (c :: p.1, p.2.1, p.2.2)

/-- Fuel-indexed global scan of the extraction regex, returning captured
URLs in match order. -/
def extractScan : Nat → List Char → List JStr
  | 0, _ => []
  | _ + 1, [] => []
  | fuel + 1, c :: cs =>
    match
      (if c = '!' then
        match cs with
        | '[' :: rest => extractAltSearch rest
        | _ => none
      else none)
    with
    | some (_, url, r3) => url :: extractScan fuel r3
    | none => extractScan fuel cs

/-- First-occurrence de-duplication (`Array.from(new Set(urls))` keeps the
first occurrence of each element, in order); fuel-indexed. -/
def dedupFirstF : Nat → List JStr → List JStr
  | 0, _ => []
  | _ + 1, [] => []
  | fuel + 1, x :: xs => x :: dedupFirstF fuel (xs.filter (fun y => y ≠ x))

/-- First-occurrence de-duplication. -/
def dedupFirst (l : List JStr) : List JStr := dedupFirstF l.length l

/-- `extractInlineImageUrls` from src/lib/utils.ts: scan matches, skip
`data:` URLs, de-duplicate preserving first-occurrence order. -/
def extractInlineImageUrls (markdown : JStr) : List JStr :=
  dedupFirst ((extractScan markdown.length markdown).filter
    (fun u => !(("data:".toList).isPrefixOf u)))

/-! ## Multi-format exporter (src/lib/exporters.ts, class PostExporter) -/

/-- `post.media?.wixMedia?.image?.url` optional chain. -/
def coverUrlOf (post : WixBlogPost) : Option JStr :=
  ((post.media.bind (·.wixMedia)).bind (·.image)).map (·.url)

/-- The literal status strings. -/
def statusToChars : PostStatus → JStr
  | .published => "PUBLISHED".toList
  | .draft => "DRAFT".toList
  | .scheduled => "SCHEDULED".toList

/-- CSV escaping step `.replace(/"/g, '""')`: double every double-quote. -/
def csvEscQuotes (s : JStr) : JStr :=
  s.foldr (fun c acc => if c = '"' then '"' :: '"' :: acc else c :: acc) []

/-- CSV escaping step `.replace(/\n/g, '\\n')`: each newline becomes the
two-char sequence backslash-n. -/
def csvEscNewlines (s : JStr) : JStr :=
  s.foldr (fun c acc => if c = '\n' then '\\' :: 'n' :: acc else c :: acc) []

/-- Wrap a rendered CSV field in double quotes. -/
def quoted (s : JStr) : JStr := '"' :: (s ++ ['"'])

namespace PostExporter

/-- The three status groups of `PostExporter.categorizePosts`. -/
structure CategorizedPosts where
  published : List WixBlogPost
  drafts : List WixBlogPost
  scheduled : List WixBlogPost

/-- `PostExporter.categorizePosts`: `published` keeps posts with status
`'PUBLISHED'` or no status (`!p.status`), `drafts` and `scheduled` filter
on the exact status string. -/
def categorizePosts (posts : List WixBlogPost) : CategorizedPosts :=
  { published := posts.filter fun p =>
      p.status == some PostStatus.published || p.status == none
    drafts := posts.filter fun p => p.status == some PostStatus.draft
    scheduled := posts.filter fun p => p.status == some PostStatus.scheduled }

/-- The CSV header fields of `PostExporter.exportCSV` (`content` appended
when `includeContent` is set). -/
def csvHeaders (opts : ExportOptions) : List JStr :=
  ["id".toList, "slug".toList, "title".toList, "status".toList,
   "firstPublishedDate".toList, "lastPublishedDate".toList, "featured".toList,
   "url".toList, "tags".toList, "categoryIds".toList, "readingTime".toList,
   "coverImageUrl".toList, "coverImageLocalPath".toList, "contentLength".toList,
   "excerptLength".toList] ++
  (if opts.includeContent then ["content".toList] else [])

/-- One CSV data row of `PostExporter.exportCSV`: every field is
interpolated into `"..."`; only the title (and the content, which is
additionally newline-escaped) are quote-escaped. -/
def csvRow (opts : ExportOptions) (post : WixBlogPost) : List JStr :=
  [quoted post.id,
   quoted post.slug,
   quoted (csvEscQuotes post.title),
   quoted (match post.status with
           | some s => statusToChars s
           | none => "PUBLISHED".toList),
   quoted post.firstPublishedDate,
   quoted post.lastPublishedDate,
   quoted (if post.featured then "true".toList else "false".toList),
   quoted (post.url.getD []),
   quoted (List.intercalate ("|".toList) post.hashtags),
   quoted (List.intercalate ("|".toList) post.categoryIds),
   quoted (natToChars post.minutesToRead),
   quoted ((coverUrlOf post).getD []),
   quoted (post.coverImageLocalPath.getD []),
   quoted (natToChars ((post.contentText.map List.length).getD 0)),
   quoted (natToChars post.excerpt.length)] ++
  (if opts.includeContent then
    [quoted (csvEscNewlines (csvEscQuotes (post.contentText.getD [])))]
  else [])

/-- `PostExporter.exportCSV`: the text written to the CSV file — the
header row, then one row per post, each line newline-terminated. -/
def exportCSV (opts : ExportOptions) (posts : List WixBlogPost) : JStr :=
  List.intercalate (",".toList) (csvHeaders opts) ++ ['\n'] ++
    (posts.map (fun p => List.intercalate (",".toList) (csvRow opts p) ++ ['\n'])).flatten

end PostExporter

/-! ## Report generator (src/lib/report-generator.ts) -/

namespace ReportGenerator

/-- The `counts` block of `SummaryReport`. -/
structure StatusCounts where
  total : Nat
  published : Nat
  draft : Nat
  scheduled : Nat
deriving DecidableEq

/-- The status counts of `ReportGenerator.generateSummaryReport`: the
`published` filter is the same `p.status === 'PUBLISHED' || !p.status`
predicate written a second time in the source. -/
def reportCounts (posts : List WixBlogPost) : StatusCounts :=
  { total := posts.length
    published := (posts.filter fun p =>
      p.status == some PostStatus.published || p.status == none).length
    draft := (posts.filter fun p => p.status == some PostStatus.draft).length
    scheduled := (posts.filter fun p => p.status == some PostStatus.scheduled).length }

/-- The `images` block of `SummaryReport`. -/
structure ImageStats where
  attempted : Nat
  downloaded : Nat
  failed : Nat
deriving DecidableEq

/-- The image statistics of `ReportGenerator.generateSummaryReport`:
`attempted` is the ledger length, `downloaded` counts `success`,
`failed` counts `!success`. -/
def reportImages (imageResults : List ImageDownloadResult) : ImageStats :=
  { attempted := imageResults.length
    downloaded := (imageResults.filter (·.success)).length
    failed := (imageResults.filter fun r => !r.success).length }

/-- One `tagCounts.set(tag, (tagCounts.get(tag) || 0) + 1)` step on the
insertion-ordered JS `Map`, as an association list: an existing key is
updated in place, a new key is appended. -/
def bumpTag (m : List (JStr × Nat)) (t : JStr) : List (JStr × Nat) :=
  if (m.lookup t).isSome then m.map fun p => if p.1 = t then (p.1, p.2 + 1) else p
  else m ++ [(t, 1)]

/-- The tag-frequency map of `ReportGenerator.generateSummaryReport`,
entries in first-encountered order. -/
def tagCounts (posts : List WixBlogPost) : List (JStr × Nat) :=
  posts.foldl (fun m p => p.hashtags.foldl bumpTag m) []

/-- Stable descending insertion by count: the new element goes after
strictly greater counts and before equal ones. -/
def insertByCountDesc (x : JStr × Nat) : List (JStr × Nat) → List (JStr × Nat)
  | [] => [x]
  | y :: ys => if y.2 > x.2 then y :: insertByCountDesc x ys else x :: y :: ys

/-- Stable descending-by-count sort.  The source calls
`Array.prototype.sort` with comparator `b[1] - a[1]`, which is stable, so
it computes exactly the stable descending permutation this insertion sort
computes. -/
def sortByCountDesc : List (JStr × Nat) → List (JStr × Nat)
  | [] => []
  | x :: xs => insertByCountDesc x (sortByCountDesc xs)

/-- The `tagsTop10` block of `ReportGenerator.generateSummaryReport`:
sort the first-encountered-ordered tag counts by descending count
(stable) and keep the first 10. -/
def tagsTop10 (posts : List WixBlogPost) : List (JStr × Nat) :=
  (sortByCountDesc (tagCounts posts)).take 10

/-- The `failures.imageDownloads` block of
`ReportGenerator.generateSummaryReport`. -/
def reportFailures (imageResults : List ImageDownloadResult) :
    List (JStr × JStr × JStr) :=
  (imageResults.filter fun r => !r.success).map fun r =>
    (r.postId, r.originalUrl, r.error.getD ("Unknown error".toList))

end ReportGenerator

/-- Position of the first encounter of a tag in the scan order of the
flattened tag list (the measure by which the spec's tie-breaking clause
orders equal-count tags). -/
def firstEncIdx (t : JStr) : List JStr → Nat
  | [] => 0
  | u :: us => if u = t then 0 else firstEncIdx t us + 1

/-! ## Image acquisition engine (src/lib/image-downloader.ts)

The network is an oracle `env : Nat → FetchRes` giving the outcome of the
n-th `fetch` call of the run; a timeout abort is a `networkError` (the
rejection of the aborted fetch).  File writes, backoff waits and fetch
calls are recorded as data so that theorems can speak about them. -/

/-- The observable outcome of one `fetch`. -/
inductive FetchRes where
  | networkError (msg : JStr)
  | response (status : Nat) (statusText : JStr) (body : List Nat)

/-- `response.ok`: status in the 200-299 range. -/
def statusOk (s : Nat) : Bool := 200 ≤ s && s < 300

/-- One attempt body of `ImageDownloader.downloadSingleImage`: a thrown
error message (left) or the non-empty response body (right), per the
source's `!response.ok` and empty-buffer checks. -/
def attemptOutcome : FetchRes → Sum JStr (List Nat)
  | .networkError msg => .inl msg
  | .response status statusText body =>
    if !(statusOk status) then
      .inl ("HTTP ".toList ++ natToChars status ++ ": ".toList ++ statusText)
    else if body.isEmpty then .inl ("Empty response body".toList)
    else .inr body

/-- `'cover' | 'inline'` task roles. -/
inductive ImageType where
  | cover | inline
deriving DecidableEq

/-- The filename prefix encoding the task role:
`type === 'cover' ? 'cover' : 'image'`. -/
def rolePrefix : ImageType → JStr
  | .cover => "cover".toList
  | .inline => "image".toList

/-- One entry of the `imageDownloads` task list built by
`ImageDownloader.downloadAllImages`. -/
structure ImageTask where
  postId : JStr
  postSlug : JStr
  url : JStr
  type : ImageType
deriving DecidableEq

/-- The tasks contributed by one post: the cover URL (if present,
non-empty and valid), then the extracted inline URLs (if the post has
non-empty textual content), each kept only when valid. -/
def postTasks (post : WixBlogPost) : List ImageTask :=
  let postSlug := sanitizeFilename (if post.slug.isEmpty then post.id else post.slug)
  (match coverUrlOf post with
   | some coverUrl =>
     if !coverUrl.isEmpty && isValidImageUrl coverUrl then
       [{ postId := post.id, postSlug := postSlug, url := coverUrl, type := .cover }]
     else []
   | none => []) ++
  (match post.contentText with
   | some content =>
     if content.isEmpty then []
     else ((extractInlineImageUrls content).filter isValidImageUrl).map fun url =>
       { postId := post.id, postSlug := postSlug, url := url, type := .inline }
   | none => [])

/-- The full `imageDownloads` task list, in source order (per post: cover
first, then inline). -/
def collectImageTasks (posts : List WixBlogPost) : List ImageTask :=
  (posts.map postTasks).flatten

namespace ImageDownloader

/-- Everything one `downloadSingleImage` call produces: its single
ledger entry, its file writes, its backoff waits (ms) and how many fetch
calls it made. -/
structure SingleDlRes where
  result : ImageDownloadResult
  writes : List (JStr × List Nat)
  waitsMs : List Nat
  requests : Nat
deriving DecidableEq

/-- The retry loop of `ImageDownloader.downloadSingleImage`: `k` attempts
remain, the current one is number `attempt` (counted from 1) and uses the
`reqIdx`-th fetch of the run.  On success: hash the bytes, derive the
extension, persist under `<type>-<hash><ext>` in the post directory and
return the relative path.  On failure with attempts left: wait
`2^attempt` seconds and retry; on the last failure: record the last
error. -/
def dlGo (t : ImageTask) (imagesDir : JStr) (env : Nat → FetchRes) :
    Nat → Nat → JStr → Nat → SingleDlRes
  | 0, _, lastError, _ =>
    { result := { postId := t.postId, originalUrl := t.url, localPath := none,
                  success := false, error := some lastError }
      writes := [], waitsMs := [], requests := 0 }
  | k + 1, attempt, _, reqIdx =>
    match attemptOutcome (env reqIdx) with
    | .inr body =>
      let hash := generateImageHash t.url (some body)
      let extension := getFileExtensionFromUrl t.url
      let filename := rolePrefix t.type ++ "-".toList ++ hash ++ extension
      let localPath := createSafePath [createSafePath [imagesDir, t.postSlug], filename]
      let relativePath := "images/".toList ++ t.postSlug ++ "/".toList ++ filename
      { result := { postId := t.postId, originalUrl := t.url,
                    localPath := some relativePath, success := true, error := none }
        writes := [(localPath, body)], waitsMs := [], requests := 1 }
    | .inl msg =>
      if k = 0 then
        { result := { postId := t.postId, originalUrl := t.url, localPath := none,
                      success := false, error := some msg }
          writes := [], waitsMs := [], requests := 1 }
      else
        let r := dlGo t imagesDir env k (attempt + 1) msg (reqIdx + 1)
        { result := r.result, writes := r.writes,
          waitsMs := (2 ^ attempt * 1000) :: r.waitsMs, requests := r.requests + 1 }

/-- `ImageDownloader.downloadSingleImage` for a task, starting at the
`reqIdx`-th fetch of the run, with `retry` configured attempts. -/
def downloadSingleImage (t : ImageTask) (imagesDir : JStr) (env : Nat → FetchRes)
    (reqIdx retry : Nat) : SingleDlRes :=
  dlGo t imagesDir env retry 1 [] reqIdx

/-- Accumulated outcome of running the task list. -/
structure RunTasksRes where
  ledger : List ImageDownloadResult
  writes : List (JStr × List Nat)
  waitsMs : List Nat
  requests : Nat

/-- Run every task (one `downloadSingleImage` each); the ledger receives
exactly one entry per task, in task order (`Promise.allSettled` preserves
order and `downloadSingleImage` never rejects). -/
def runTasks (imagesDir : JStr) (env : Nat → FetchRes) (retry : Nat) :
    List ImageTask → Nat → RunTasksRes
  | [], _ => { ledger := [], writes := [], waitsMs := [], requests := 0 }
  | t :: ts, reqIdx =>
    let s := downloadSingleImage t imagesDir env reqIdx retry
    let rest := runTasks imagesDir env retry ts (reqIdx + s.requests)
    { ledger := s.result :: rest.ledger
      writes := s.writes ++ rest.writes
      waitsMs := s.waitsMs ++ rest.waitsMs
      requests := s.requests + rest.requests }

/-- `Map.set` on the insertion-ordered JS `Map`. -/
def mapSet (m : List (JStr × JStr)) (k v : JStr) : List (JStr × JStr) :=
  if (m.lookup k).isSome then m.map fun p => if p.1 = k then (k, v) else p
  else m ++ [(k, v)]

/-- The `urlToLocalPath` map built from the settled results, in ledger
order, keeping only results with `success` and a (truthy) local path. -/
def buildMapping (ledger : List ImageDownloadResult) : List (JStr × JStr) :=
  ledger.foldl
    (fun m r =>
      match r.success, r.localPath with
      | true, some lp => if lp.isEmpty then m else mapSet m r.originalUrl lp
      | _, _ => m)
    []

/-- Everything `downloadAllImages` produces. -/
structure DownloadAllRes where
  urlToLocalPath : List (JStr × JStr)
  ledger : List ImageDownloadResult
  writes : List (JStr × List Nat)
  waitsMs : List Nat
  requests : Nat

/-- `ImageDownloader.downloadAllImages`: skip entirely (empty mapping, no
ledger entries, zero fetch calls) when downloading is disabled or the run
is a dry run; otherwise build the task list and run it. -/
def downloadAllImages (opts : ExportOptions) (posts : List WixBlogPost)
    (env : Nat → FetchRes) : DownloadAllRes :=
  if !opts.downloadImages || opts.dryRun then
    { urlToLocalPath := [], ledger := [], writes := [], waitsMs := [], requests := 0 }
  else
    let imagesDir := createSafePath [opts.outputDir, "images".toList]
    let tasks := collectImageTasks posts
    let r := runTasks imagesDir env opts.retry tasks 0
    { urlToLocalPath := buildMapping r.ledger, ledger := r.ledger,
      writes := r.writes, waitsMs := r.waitsMs, requests := r.requests }

/-- `ImageDownloader.getDownloadStats`: `failed` is computed as
`attempted - successful`. -/
def getDownloadStats (downloadResults : List ImageDownloadResult) :
    ReportGenerator.ImageStats :=
  let attempted := downloadResults.length
  let successful := (downloadResults.filter (·.success)).length
  { attempted := attempted, downloaded := successful, failed := attempted - successful }

/-- `ImageDownloader.getFailedDownloads`. -/
def getFailedDownloads (downloadResults : List ImageDownloadResult) :
    List (JStr × JStr × JStr) :=
  (downloadResults.filter fun r => !r.success).map fun r =>
    (r.postId, r.originalUrl, r.error.getD ("Unknown error".toList))

end ImageDownloader

/-! ## Bounded-concurrency limiter (p-limit), modelled from the spec

The `p-limit` library is a dependency, not repository source.  Modelled
from the spec: §5 describes it as a counting semaphore / worker pool —
"at most C in-flight downloads at once, regardless of total task count",
tasks queued FIFO.  A state holds the queued, in-flight and settled
tasks; a step either starts the head of the queue (only when fewer than
`c` tasks are in flight) or settles an in-flight task. -/

/-- State of the limiter over the download tasks. -/
structure PoolState where
  pending : List ImageTask
  running : List ImageTask
  done : List ImageTask

/-- Modelled from the spec: one scheduling step of the `p-limit`
semaphore with concurrency ceiling `c`. -/
inductive PoolStep (c : Nat) : PoolState → PoolState → Prop
  | start (t : ImageTask) (rest : List ImageTask) (s : PoolState) :
      s.pending = t :: rest → s.running.length < c →
      PoolStep c s { pending := rest, running := t :: s.running, done := s.done }
  | finish (t : ImageTask) (l1 l2 : List ImageTask) (s : PoolState) :
      s.running = l1 ++ t :: l2 →
      PoolStep c s { pending := s.pending, running := l1 ++ l2, done := t :: s.done }

/-- Reachability of the limiter. -/
def PoolReach (c : Nat) (init s : PoolState) : Prop :=
  Relation.ReflTransGen (PoolStep c) init s

/-- The limiter state at the start of `downloadAllImages`: every task of
the run queued (the source wraps each task's `downloadSingleImage` in
`this.limit(...)`), none in flight. -/
def initPoolState (posts : List WixBlogPost) : PoolState :=
  { pending := collectImageTasks posts, running := [], done := [] }

/-! ## JSON serialization (`JSON.stringify(posts, null, 2)`) and re-parsing
(`JSON.parse`).  `JSON.stringify` with gap 2 is embedded exactly (two
spaces per depth, `[\n`/`,\n`-separated items, `"key": value` fields);
`JSON.parse` is embedded as a whitespace-tolerant recursive-descent
parser, fuel-indexed (any fuel at least the input length suffices),
restricted like the whole model to integer numbers. -/

/-- `JSON.stringify` escaping of one string char. -/
def jEscapeChar (c : Char) : List Char :=
  if c = '"' then ['\\', '"']
  else if c = '\\' then ['\\', '\\']
  else if c = '\x08' then ['\\', 'b']
  else if c = '\x0c' then ['\\', 'f']
  else if c = '\n' then ['\\', 'n']
  else if c = '\r' then ['\\', 'r']
  else if c = '\t' then ['\\', 't']
  else if c.toNat < 32 then
    ['\\', 'u', '0', '0', hexDigitChar (c.toNat / 16), hexDigitChar (c.toNat % 16)]
  else [c]

/-- `JSON.stringify` escaping of a string body. -/
def jEscape (s : JStr) : JStr := (s.map jEscapeChar).flatten

/-- A JSON string literal. -/
def jStrLit (s : JStr) : JStr := '"' :: (jEscape s ++ ['"'])

/-- Indentation: two spaces per depth (gap argument `2`). -/
def jInd (d : Nat) : JStr := List.replicate (2 * d) ' '

mutual

/-- `JSON.stringify(v, null, 2)` at depth `d` (the keyword and bracket
literals are spelled as explicit char lists). -/
def emitJson (d : Nat) : Json → JStr
  | .null => ['n', 'u', 'l', 'l']
  | .bool b => if b then ['t', 'r', 'u', 'e'] else ['f', 'a', 'l', 's', 'e']
  | .num n => intToChars n
  | .str s => jStrLit s
  | .arr [] => ['[', ']']
  | .arr (x :: xs) =>
    '[' :: '\n' ::
      (jInd (d + 1) ++ emitJson (d + 1) x ++ emitItemsRest (d + 1) xs ++
        '\n' :: (jInd d ++ [']']))
  | .obj [] => ['\x7b', '\x7d']
  | .obj ((k, v) :: fs) =>
    '\x7b' :: '\n' ::
      (jInd (d + 1) ++ jStrLit k ++ ':' :: ' ' :: emitJson (d + 1) v ++
        emitFieldsRest (d + 1) fs ++ '\n' :: (jInd d ++ ['\x7d']))

/-- The `,\n<indent><item>` continuation of a pretty-printed array. -/
def emitItemsRest (d : Nat) : List Json → JStr
  | [] => []
  | x :: xs => ',' :: '\n' :: (jInd d ++ emitJson d x ++ emitItemsRest d xs)

/-- The `,\n<indent>"key": <value>` continuation of a pretty-printed object. -/
def emitFieldsRest (d : Nat) : List (JStr × Json) → JStr
  | [] => []
  | (k, v) :: fs =>
    ',' :: '\n' :: (jInd d ++ jStrLit k ++ ':' :: ' ' :: emitJson d v ++
      emitFieldsRest d fs)

end

/-- JSON whitespace. -/
def isWsChar (c : Char) : Bool := c = ' ' || c = '\n' || c = '\t' || c = '\r'

/-- Drop leading JSON whitespace. -/
def skipWs (cs : List Char) : List Char := cs.dropWhile isWsChar

/-- Decimal digit test. -/
def isDigitChar (c : Char) : Bool := 48 ≤ c.toNat && c.toNat ≤ 57

/-- Decimal digit value. -/
def digitVal (c : Char) : Nat := c.toNat - 48

/-- Value of a list of decimal digits, most significant first. -/
def parseNatVal (ds : List Char) : Nat := ds.foldl (fun a c => 10 * a + digitVal c) 0

/-- Hex digit value. -/
def parseHexDigit (c : Char) : Option Nat :=
  if 48 ≤ c.toNat && c.toNat ≤ 57 then some (c.toNat - 48)
  else if 97 ≤ c.toNat && c.toNat ≤ 102 then some (c.toNat - 87)
  else if 65 ≤ c.toNat && c.toNat ≤ 70 then some (c.toNat - 55)
  else none

/-- The character denoted by a single-char JSON escape. -/
def escCharOf (e : Char) : Option Char :=
  if e = '"' then some '"'
  else if e = '\\' then some '\\'
  else if e = '/' then some '/'
  else if e = 'b' then some '\x08'
  else if e = 'f' then some '\x0c'
  else if e = 'n' then some '\n'
  else if e = 'r' then some '\r'
  else if e = 't' then some '\t'
  else none

/-- Parse a JSON string body after the opening quote, up to and including
the closing quote. -/
def parseStringBody : Nat → List Char → Option (JStr × List Char)
  | 0, _ => none
  | fuel + 1, cs =>
    match cs with
    | [] => none
    | c :: rest =>
      if c = '"' then some ([], rest)
      else if c = '\\' then
        match rest with
        | [] => none
        | e :: rest2 =>
          if e = 'u' then
            match rest2 with
            | h1 :: h2 :: h3 :: h4 :: rest3 =>
              match parseHexDigit h1, parseHexDigit h2, parseHexDigit h3,
                  parseHexDigit h4 with
              | some a, some b, some c1, some d1 =>
                (parseStringBody fuel rest3).map fun p =>
                  (Char.ofNat (4096 * a + 256 * b + 16 * c1 + d1) :: p.1, p.2)
              | _, _, _, _ => none
            | _ => none
          else
            match escCharOf e with
            | some ec => (parseStringBody fuel rest2).map fun p => (ec :: p.1, p.2)
            | none => none
      else (parseStringBody fuel rest).map fun p => (c :: p.1, p.2)

/-- Parse an integer numeral (optional sign handled by the caller). -/
def parseNumTail (cs : List Char) (neg : Bool) : Option (Json × List Char) :=
  let ds := cs.takeWhile isDigitChar
  if ds.isEmpty then none
  else
    let n : Int := Int.ofNat (parseNatVal ds)
    some (.num (if neg then -n else n), cs.drop ds.length)

mutual

/-- `JSON.parse` value parser (fuel-indexed). -/
def parseVal : Nat → List Char → Option (Json × List Char)
  | 0, _ => none
  | fuel + 1, cs =>
    match skipWs cs with
    | [] => none
    | c :: rest =>
      if c = 'n' then
        match rest with
        | 'u' :: 'l' :: 'l' :: r => some (.null, r)
        | _ => none
      else if c = 't' then
        match rest with
        | 'r' :: 'u' :: 'e' :: r => some (.bool true, r)
        | _ => none
      else if c = 'f' then
        match rest with
        | 'a' :: 'l' :: 's' :: 'e' :: r => some (.bool false, r)
        | _ => none
      else if c = '"' then
        (parseStringBody (rest.length + 1) rest).map fun p => (.str p.1, p.2)
      else if c = '[' then
        match skipWs rest with
        | [] => none
        | c2 :: r =>
          if c2 = ']' then some (.arr [], r)
          else
            match parseVal fuel rest with
            | some (v, r2) => parseArrTail fuel r2 [v]
            | none => none
      else if c = '\x7b' then
        match skipWs rest with
        | [] => none
        | c2 :: r =>
          if c2 = '\x7d' then some (.obj [], r)
          else parseObjFields fuel rest []
      else if c = '-' then parseNumTail rest true
      else if isDigitChar c then parseNumTail (c :: rest) false
      else none

/-- After one array item: a comma and another item, or the closing
bracket. -/
def parseArrTail : Nat → List Char → List Json → Option (Json × List Char)
  | 0, _, _ => none
  | fuel + 1, cs, acc =>
    match skipWs cs with
    | [] => none
    | c :: r =>
      if c = ',' then
        match parseVal fuel r with
        | some (v, r2) => parseArrTail fuel r2 (acc ++ [v])
        | none => none
      else if c = ']' then some (.arr acc, r)
      else none

/-- Parse `"key": value` fields, continuing on commas, ending at the
closing brace. -/
def parseObjFields : Nat → List Char → List (JStr × Json) →
    Option (Json × List Char)
  | 0, _, _ => none
  | fuel + 1, cs, acc =>
    match skipWs cs with
    | [] => none
    | c :: r =>
      if c = '"' then
        match parseStringBody (r.length + 1) r with
        | some (k, r2) =>
          match skipWs r2 with
          | [] => none
          | c2 :: r3 =>
            if c2 = ':' then
              match parseVal fuel r3 with
              | some (v, r4) =>
                match skipWs r4 with
                | [] => none
                | c3 :: r5 =>
                  if c3 = ',' then parseObjFields fuel r5 (acc ++ [(k, v)])
                  else if c3 = '\x7d' then some (.obj (acc ++ [(k, v)]), r5)
                  else none
              | none => none
            else none
        | none => none
      else none

end

mutual

/-- Fuel sufficient to parse a serialized value. -/
def jfuel : Json → Nat
  | .null => 1
  | .bool _ => 1
  | .num _ => 1
  | .str _ => 1
  | .arr xs => 1 + jfuelList xs
  | .obj fs => 1 + jfuelFields fs

/-- Fuel for the items of an array. -/
def jfuelList : List Json → Nat
  | [] => 1
  | x :: xs => 1 + jfuel x + jfuelList xs

/-- Fuel for the fields of an object. -/
def jfuelFields : List (JStr × Json) → Nat
  | [] => 1
  | (_, v) :: fs => 1 + jfuel v + jfuelFields fs

end

/-- `JSON.parse`: parse one value, allow only trailing whitespace. -/
def jsonParse (cs : JStr) : Option Json :=
  match parseVal (cs.length + 1) cs with
  | some (v, rest) => if (skipWs rest).isEmpty then some v else none
  | none => none

namespace PostExporter

/-- `PostExporter.exportJSON`: the file content is
`JSON.stringify(posts, null, 2)` — the post collection is a JS runtime
value, i.e. a JSON array. -/
def exportJSON (posts : List Json) : JStr := emitJson 0 (Json.arr posts)

end PostExporter

/-- A present optional field of a serialized post; an absent optional
field contributes no key (JS objects simply lack the property, and
`JSON.stringify` of a set property never drops it). -/
def optField (k : JStr) (v : Option Json) : List (JStr × Json) :=
  match v with
  | some j => [(k, j)]
  | none => []

/-- The `media.wixMedia.image` object as a JS value. -/
def encodeImage (img : WixImage) : Json :=
  .obj ([("url".toList, .str img.url)] ++
    optField ("altText".toList) (img.altText.map .str) ++
    optField ("height".toList) (img.height.map fun n => .num n) ++
    optField ("width".toList) (img.width.map fun n => .num n))

/-- The `media.wixMedia` object as a JS value. -/
def encodeMediaBox (mb : WixMediaBox) : Json :=
  .obj (optField ("image".toList) (mb.image.map encodeImage))

/-- The `media` object as a JS value. -/
def encodeMedia (m : PostMedia) : Json :=
  .obj (optField ("wixMedia".toList) (m.wixMedia.map encodeMediaBox) ++
    [("displayed".toList, .bool m.displayed)])

/-- A post as the JS runtime value `JSON.stringify` serializes —
including the augmented `localImagePaths` / `coverImageLocalPath` fields
when set. -/
def encodePost (p : WixBlogPost) : Json :=
  .obj ([("id".toList, .str p.id),
         ("title".toList, .str p.title),
         ("excerpt".toList, .str p.excerpt)] ++
    optField ("contentText".toList) (p.contentText.map .str) ++
    optField ("url".toList) (p.url.map .str) ++
    [("firstPublishedDate".toList, .str p.firstPublishedDate),
     ("lastPublishedDate".toList, .str p.lastPublishedDate)] ++
    optField ("status".toList) (p.status.map fun s => .str (statusToChars s)) ++
    [("slug".toList, .str p.slug),
     ("featured".toList, .bool p.featured),
     ("categoryIds".toList, .arr (p.categoryIds.map .str)),
     ("tagIds".toList, .arr (p.tagIds.map .str)),
     ("relatedPostIds".toList, .arr (p.relatedPostIds.map .str))] ++
    optField ("membersOnly".toList) (p.membersOnly.map .bool) ++
    [("hashtags".toList, .arr (p.hashtags.map .str)),
     ("commentingEnabled".toList, .bool p.commentingEnabled),
     ("minutesToRead".toList, .num p.minutesToRead)] ++
    optField ("viewCount".toList) (p.viewCount.map fun n => .num n) ++
    optField ("likeCount".toList) (p.likeCount.map fun n => .num n) ++
    [("language".toList, .str p.language)] ++
    optField ("media".toList) (p.media.map encodeMedia) ++
    optField ("seoData".toList) p.seoData ++
    optField ("localImagePaths".toList)
      (p.localImagePaths.map fun l => .arr (l.map .str)) ++
    optField ("coverImageLocalPath".toList) (p.coverImageLocalPath.map .str))

/-! ## Segment view of markdown content (specification side of C5)

A markdown string decomposes uniquely into literal characters and the
inline image references found by the left-to-right scan of the rewrite
regex; rewriting renders each segment, replacing exactly the reference
targets present in the mapping. -/

/-- A segment: a literal char, or one matched inline image reference. -/
inductive MdSeg where
  | lit (c : Char)
  | ref (alt url : JStr)

/-- The text a segment stands for. -/
def segText : MdSeg → JStr
  | .lit c => [c]
  | .ref alt url => refText alt url

/-- How rewriting renders a segment: a reference whose URL is mapped is
redirected to the local path (alt text preserved); anything else is kept
verbatim. -/
def segRender (m : List (JStr × JStr)) : MdSeg → JStr
  | .lit c => [c]
  | .ref alt url =>
    match m.lookup url with
    | some p => refText alt p
    | none => refText alt url

/-- Fuel-indexed segmentation scan (same scan as `rewriteScan`). -/
def mdSegScan : Nat → List Char → List MdSeg
  | 0, _ => []
  | _ + 1, [] => []
  | fuel + 1, c :: cs =>
    match matchImageRef (c :: cs) with
    | some (alt, url, rest) => .ref alt url :: mdSegScan fuel rest
    | none => .lit c :: mdSegScan fuel cs

/-- The segment decomposition of a markdown string. -/
def mdSegments (markdown : JStr) : List MdSeg := mdSegScan markdown.length markdown

/-! ## Concrete sample data for witnesses and counterexamples -/

/-- A post with every field populated neutrally. -/
def basePost : WixBlogPost :=
  { id := "p1".toList
    title := "Post One".toList
    excerpt := "Ex".toList
    contentText := none
    url := none
    firstPublishedDate := "2024-01-02T00:00:00Z".toList
    lastPublishedDate := "2024-01-02T00:00:00Z".toList
    status := none
    slug := "post-one".toList
    featured := false
    categoryIds := []
    tagIds := []
    relatedPostIds := []
    membersOnly := none
    hashtags := []
    commentingEnabled := true
    minutesToRead := 3
    viewCount := none
    likeCount := none
    language := "en".toList
    media := none
    seoData := none
    localImagePaths := none
    coverImageLocalPath := none }

/-- A post whose cover URL also occurs as an inline reference in its
content (the C1 scenario). -/
def c1Post : WixBlogPost :=
  { basePost with
    media := some
      { wixMedia := some
          { image := some
              { url := "http://img.example.com/pic.png".toList
                altText := none, height := none, width := none } }
        displayed := true }
    contentText :=
      some ("Intro ![alt](http://img.example.com/pic.png) outro".toList) }

/-- A post whose content references the same image URL twice inline (and
has no cover). -/
def c1bPost : WixBlogPost :=
  { basePost with
    contentText := some (("![a](http://img.example.com/pic.png) " ++
      "![b](http://img.example.com/pic.png)").toList) }

/-- Options with image downloading enabled. -/
def dlOpts : ExportOptions :=
  { format := .all
    includeContent := true
    includeImages := true
    downloadImages := true
    outputDir := "out".toList
    filename := none
    customer := none
    bundleTitle := none
    bundleZip := false
    concurrency := 2
    retry := 3
    timeoutMs := 10000
    dryRun := false }

/-- An environment whose every fetch succeeds with body bytes 1,2,3. -/
def okEnv : Nat → FetchRes := fun _ => .response 200 ("OK".toList) [1, 2, 3]

/-- An environment whose every fetch fails at the network layer. -/
def failEnv : Nat → FetchRes := fun _ => .networkError ("boom".toList)

/-- A post with a distinct cover image URL, indexed by `n` (used to queue
several download tasks). -/
def coverPost (n : Nat) : WixBlogPost :=
  { basePost with
    id := 'p' :: natToChars n
    slug := "post-".toList ++ natToChars n
    media := some
      { wixMedia := some
          { image := some
              { url := "http://h.example.com/".toList ++ natToChars n ++ ".png".toList
                altText := none, height := none, width := none } }
        displayed := true } }

/-- Five posts, five pending download tasks (the C9 scenario). -/
def c9Posts : List WixBlogPost :=
  [coverPost 0, coverPost 1, coverPost 2, coverPost 3, coverPost 4]

/-- Options identical to `dlOpts` but with downloading disabled. -/
def noDlOpts : ExportOptions := { dlOpts with downloadImages := false }

/-- The five download tasks queued for `c9Posts`. -/
def c9Tasks : List ImageTask := collectImageTasks c9Posts

/-- A placeholder task (default for list lookups). -/
def blankTask : ImageTask := { postId := [], postSlug := [], url := [], type := .cover }

/-- The limiter state after the first two tasks started (none finished). -/
def c9S2 : PoolState :=
  { pending := c9Tasks.drop 2
    running := [c9Tasks.getD 1 blankTask, c9Tasks.getD 0 blankTask]
    done := [] }

/-- First post of the C6 tag-ranking example: tags a, a, b. -/
def c6PostA : WixBlogPost :=
  { basePost with hashtags := ["a".toList, "a".toList, "b".toList] }

/-- Second post of the C6 tag-ranking example: tags a, b, c. -/
def c6PostB : WixBlogPost :=
  { basePost with hashtags := ["a".toList, "b".toList, "c".toList] }

/-- First post of the C6 tie-breaking example: tags b, a. -/
def c6PostC : WixBlogPost :=
  { basePost with hashtags := ["b".toList, "a".toList] }

/-- Second post of the C6 tie-breaking example: tags a, b — both tags end
at count 2, and b was encountered first. -/
def c6PostD : WixBlogPost :=
  { basePost with hashtags := ["a".toList, "b".toList] }

/-- A concrete cover-image task. -/
def wTask : ImageTask :=
  { postId := "p1".toList
    postSlug := "post-one".toList
    url := "http://img.example.com/pic.png".toList
    type := .cover }

/-! # Theorems -/

/-! ## Shared helper lemmas -/

/-- The three status filters partition any post collection: the statuses
`PUBLISHED`, `DRAFT`, `SCHEDULED` and "absent" are exhaustive and mutually
exclusive. -/
theorem statusFilter_partition (posts : List WixBlogPost) :
    (posts.filter fun p =>
        p.status == some PostStatus.published || p.status == none).length +
      (posts.filter fun p => p.status == some PostStatus.draft).length +
      (posts.filter fun p => p.status == some PostStatus.scheduled).length =
      posts.length := by
  induction posts with
  | nil => rfl
  | cons p ps ih =>
    rcases h : p.status with _ | s
    · simp [List.filter_cons, h]
      omega
    · cases s <;>
        · simp [List.filter_cons, h]
          omega

/-! ## C10 -/

/-- C10: for every ledger state, the derived statistics satisfy
`attempted = downloaded + failed`, both in the downloader's
`getDownloadStats` and in the `images` block of the summary report. -/
theorem c10_stats_partition (results : List ImageDownloadResult) :
    (ImageDownloader.getDownloadStats results).attempted =
        (ImageDownloader.getDownloadStats results).downloaded +
          (ImageDownloader.getDownloadStats results).failed ∧
      (ReportGenerator.reportImages results).attempted =
        (ReportGenerator.reportImages results).downloaded +
          (ReportGenerator.reportImages results).failed := by
  constructor
  · have hle := List.length_filter_le (·.success) results
    simp only [ImageDownloader.getDownloadStats]
    omega
  · have h := List.length_eq_length_filter_add (l := results) (·.success)
    simp only [ReportGenerator.reportImages]
    exact h

/-! ## C2 -/

/-- C2: the no-status-means-Published rule is applied identically in the
exporter's grouping and the report's counts: the counts equal the group
sizes, membership in each group is exactly the corresponding status
condition, and the three groups partition the collection. -/
theorem c2_status_categorization (posts : List WixBlogPost) :
    ((ReportGenerator.reportCounts posts).published =
        (PostExporter.categorizePosts posts).published.length ∧
      (ReportGenerator.reportCounts posts).draft =
        (PostExporter.categorizePosts posts).drafts.length ∧
      (ReportGenerator.reportCounts posts).scheduled =
        (PostExporter.categorizePosts posts).scheduled.length ∧
      (ReportGenerator.reportCounts posts).total = posts.length) ∧
    (∀ p, p ∈ (PostExporter.categorizePosts posts).published ↔
        p ∈ posts ∧ (p.status = some PostStatus.published ∨ p.status = none)) ∧
    (∀ p, p ∈ (PostExporter.categorizePosts posts).drafts ↔
        p ∈ posts ∧ p.status = some PostStatus.draft) ∧
    (∀ p, p ∈ (PostExporter.categorizePosts posts).scheduled ↔
        p ∈ posts ∧ p.status = some PostStatus.scheduled) ∧
    (PostExporter.categorizePosts posts).published.length +
        (PostExporter.categorizePosts posts).drafts.length +
        (PostExporter.categorizePosts posts).scheduled.length = posts.length := by
  refine ⟨⟨rfl, rfl, rfl, rfl⟩, ?_, ?_, ?_, statusFilter_partition posts⟩
  · intro p
    simp [PostExporter.categorizePosts, List.mem_filter]
  · intro p
    simp [PostExporter.categorizePosts, List.mem_filter]
  · intro p
    simp [PostExporter.categorizePosts, List.mem_filter]

/-! ## C4 -/

/-- C4: when downloading is disabled or the run is a dry run,
`downloadAllImages` returns an empty URL-to-local-path mapping, makes no
fetch calls, writes no files, and leaves the ledger empty. -/
theorem c4_skip_conditions (opts : ExportOptions) (posts : List WixBlogPost)
    (env : Nat → FetchRes)
    (h : opts.downloadImages = false ∨ opts.dryRun = true) :
    (ImageDownloader.downloadAllImages opts posts env).urlToLocalPath = [] ∧
      (ImageDownloader.downloadAllImages opts posts env).ledger = [] ∧
      (ImageDownloader.downloadAllImages opts posts env).requests = 0 ∧
      (ImageDownloader.downloadAllImages opts posts env).writes = [] := by
  rcases h with h | h <;>
    simp [ImageDownloader.downloadAllImages, h]

/-- C4 witness: concrete options with downloading disabled. -/
theorem c4_skip_conditions_witness :
    (noDlOpts.downloadImages = false ∨ noDlOpts.dryRun = true) ∧
      ((ImageDownloader.downloadAllImages noDlOpts [c1Post] okEnv).urlToLocalPath = [] ∧
        (ImageDownloader.downloadAllImages noDlOpts [c1Post] okEnv).ledger = [] ∧
        (ImageDownloader.downloadAllImages noDlOpts [c1Post] okEnv).requests = 0 ∧
        (ImageDownloader.downloadAllImages noDlOpts [c1Post] okEnv).writes = []) :=
  ⟨Or.inl rfl, c4_skip_conditions noDlOpts [c1Post] okEnv (Or.inl rfl)⟩

/-! ## C3 -/

/-- The retry loop under an environment failing each of the `k` remaining
attempts (attempt numbers `attempt, attempt+1, ...`): one failure result
carrying the last error, no writes, a `2^a` seconds backoff after every
attempt `a` except the last, one fetch per attempt. -/
theorem dlGo_allFail (t : ImageTask) (imagesDir : JStr) (env : Nat → FetchRes)
    (e : Nat → JStr) :
    ∀ k attempt lastErr reqIdx, 0 < k →
      (∀ i, i < k → attemptOutcome (env (reqIdx + i)) = .inl (e (attempt + i))) →
      ImageDownloader.dlGo t imagesDir env k attempt lastErr reqIdx =
        { result := { postId := t.postId, originalUrl := t.url, localPath := none,
                      success := false, error := some (e (attempt + k - 1)) }
          writes := []
          waitsMs := (List.range (k - 1)).map fun j => 2 ^ (attempt + j) * 1000
          requests := k } := by
  intro k
  induction k with
  | zero => intro attempt lastErr reqIdx hk; omega
  | succ k ih =>
    intro attempt lastErr reqIdx _ hfail
    have h0 := hfail 0 (by omega)
    simp only [Nat.add_zero] at h0
    by_cases hk0 : k = 0
    · subst hk0
      simp [ImageDownloader.dlGo, h0]
    · have hk1 : 0 < k := Nat.pos_of_ne_zero hk0
      have hprem : ∀ i, i < k →
          attemptOutcome (env (reqIdx + 1 + i)) = .inl (e (attempt + 1 + i)) := by
        intro i hi
        have h2 := hfail (i + 1) (by omega)
        have hr : reqIdx + (i + 1) = reqIdx + 1 + i := by omega
        have ha : attempt + (i + 1) = attempt + 1 + i := by omega
        rw [hr, ha] at h2
        exact h2
      have hrec := ih (attempt + 1) (e attempt) (reqIdx + 1) hk1 hprem
      simp only [ImageDownloader.dlGo, h0, hk0, if_false, hrec]
      obtain ⟨k', rfl⟩ : ∃ k', k = k' + 1 :=
        ⟨k - 1, (Nat.succ_pred_eq_of_pos hk1).symm⟩
      have he : attempt + 1 + (k' + 1) - 1 = attempt + (k' + 1 + 1) - 1 := by omega
      have hw : 2 ^ attempt * 1000 ::
            List.map (fun j => 2 ^ (attempt + 1 + j) * 1000) (List.range (k' + 1 - 1)) =
          List.map (fun j => 2 ^ (attempt + j) * 1000) (List.range (k' + 1 + 1 - 1)) := by
        have h1 : k' + 1 + 1 - 1 = (k' + 1 - 1) + 1 := by omega
        rw [h1, List.range_succ_eq_map, List.map_cons, List.map_map]
        refine congrArg₂ List.cons ?_ ?_
        · norm_num
        · apply List.map_congr_left
          intro j _
          simp only [Function.comp_apply]
          have hz : attempt + (j + 1) = attempt + 1 + j := by omega
          rw [hz]
      rw [he, hw]

/-- One ledger entry per task: the run over the task list settles every
task into exactly one result. -/
theorem runTasks_ledger_length (imagesDir : JStr) (env : Nat → FetchRes)
    (retry : Nat) :
    ∀ tasks reqIdx,
      (ImageDownloader.runTasks imagesDir env retry tasks reqIdx).ledger.length =
        tasks.length := by
  intro tasks
  induction tasks with
  | nil => intro _; rfl
  | cons t ts ih =>
    intro reqIdx
    simp [ImageDownloader.runTasks, ih]

/-- C3: a task whose fetch fails on all `R` configured attempts yields one
failure result carrying the last error's description, with a backoff of
`2^attempt` seconds (attempt counted from 1) between consecutive attempts
and none after the last, one fetch per attempt; and the run ledger gets
exactly one entry per task (the engine settles every task instead of
aborting). -/
theorem c3_retry_exhaustion :
    (∀ (t : ImageTask) (imagesDir : JStr) (env : Nat → FetchRes) (e : Nat → JStr)
        (reqIdx retry : Nat), 0 < retry →
      (∀ i, i < retry → attemptOutcome (env (reqIdx + i)) = .inl (e (1 + i))) →
      ImageDownloader.downloadSingleImage t imagesDir env reqIdx retry =
        { result := { postId := t.postId, originalUrl := t.url, localPath := none,
                      success := false, error := some (e retry) }
          writes := []
          waitsMs := (List.range (retry - 1)).map fun j => 2 ^ (1 + j) * 1000
          requests := retry }) ∧
    (∀ (imagesDir : JStr) (env : Nat → FetchRes) (retry : Nat)
        (tasks : List ImageTask) (reqIdx : Nat),
      (ImageDownloader.runTasks imagesDir env retry tasks reqIdx).ledger.length =
        tasks.length) := by
  constructor
  · intro t imagesDir env e reqIdx retry hpos hfail
    have h := dlGo_allFail t imagesDir env e retry 1 [] reqIdx hpos hfail
    have hx : 1 + retry - 1 = retry := by omega
    rw [hx] at h
    exact h
  · exact runTasks_ledger_length

/-- C3 witness: two attempts against an always-failing network. -/
theorem c3_retry_exhaustion_witness :
    (0 < 2 ∧
      (∀ i, i < 2 → attemptOutcome (failEnv (0 + i)) =
        .inl ((fun _ => "boom".toList) (1 + i)))) ∧
      ImageDownloader.downloadSingleImage wTask ("out/images".toList) failEnv 0 2 =
        { result := { postId := wTask.postId, originalUrl := wTask.url,
                      localPath := none, success := false,
                      error := some ("boom".toList) }
          writes := []
          waitsMs := [2000]
          requests := 2 } :=
  ⟨⟨by decide, by decide⟩, by
    have h := c3_retry_exhaustion.1 wTask ("out/images".toList) failEnv
      (fun _ => "boom".toList) 0 2 (by decide) (by decide)
    simpa using h⟩

/-! ## C9 -/

/-- One limiter step preserves the concurrency bound: a task starts only
below the ceiling, and settling only shrinks the in-flight set. -/
theorem poolStep_running_le {c : Nat} {s s' : PoolState} (h : PoolStep c s s')
    (hs : s.running.length ≤ c) : s'.running.length ≤ c := by
  cases h with
  | start t rest s hp hr => simpa using hr
  | finish t l1 l2 s hr =>
    rw [hr] at hs
    simp at hs ⊢
    omega

/-- C9: in every state the limiter can reach from the start of an
acquisition run (all tasks queued, none in flight), at most
`options.concurrency` tasks are in flight. -/
theorem c9_bounded_concurrency (opts : ExportOptions) (posts : List WixBlogPost)
    (s : PoolState)
    (h : PoolReach opts.concurrency (initPoolState posts) s) :
    s.running.length ≤ opts.concurrency := by
  induction h with
  | refl => simp [initPoolState]
  | tail hab hbc ih =>
    exact poolStep_running_le hbc ih

/-- C9 witness: with ceiling 2 and the five pending tasks of `c9Posts`,
the state reached by two start steps is within the bound. -/
theorem c9_bounded_concurrency_witness :
    PoolReach dlOpts.concurrency (initPoolState c9Posts) c9S2 ∧
      c9S2.running.length ≤ dlOpts.concurrency := by
  have step1 : PoolStep dlOpts.concurrency (initPoolState c9Posts)
      { pending := c9Tasks.drop 1
        running := [c9Tasks.getD 0 blankTask]
        done := [] } := by
    have h := PoolStep.start (c := dlOpts.concurrency)
      (c9Tasks.getD 0 blankTask) (c9Tasks.drop 1) (initPoolState c9Posts)
      (by decide) (by decide)
    exact h
  have step2 : PoolStep dlOpts.concurrency
      { pending := c9Tasks.drop 1
        running := [c9Tasks.getD 0 blankTask]
        done := [] } c9S2 := by
    have h := PoolStep.start (c := dlOpts.concurrency)
      (c9Tasks.getD 1 blankTask) (c9Tasks.drop 2)
      { pending := c9Tasks.drop 1
        running := [c9Tasks.getD 0 blankTask]
        done := [] }
      (by decide) (by decide)
    exact h
  have hreach : PoolReach dlOpts.concurrency (initPoolState c9Posts) c9S2 :=
    Relation.ReflTransGen.tail (Relation.ReflTransGen.tail Relation.ReflTransGen.refl step1)
      step2
  exact ⟨hreach, c9_bounded_concurrency dlOpts c9Posts c9S2 hreach⟩

/-! ## C8 -/

/-- The newline-escape pass leaves no raw newline behind, so an escaped
content field cannot break its CSV row. -/
theorem csvEscNewlines_no_newline (s : JStr) : '\n' ∉ csvEscNewlines s := by
  induction s with
  | nil => simp [csvEscNewlines]
  | cons c cs ih =>
    show '\n' ∉ (if c = '\n' then '\\' :: 'n' :: csvEscNewlines cs
      else c :: csvEscNewlines cs)
    by_cases h : c = '\n'
    · simp [h, ih]
    · simp [h, ih]
      exact fun hc => h hc.symm

/-- C8: every CSV field is wrapped in double quotes; the title field is
the quote-doubled title (example: `My "Great" Post` renders as
`"My ""Great"" Post"`); escaped content contains no raw newline (example:
an embedded newline becomes the two chars backslash-n); and the header
row is the first line of the file. -/
theorem c8_csv_escaping (opts : ExportOptions) (posts : List WixBlogPost)
    (post : WixBlogPost) (s : JStr) :
    (PostExporter.exportCSV opts posts).takeWhile (fun c => c != '\n') =
        List.intercalate (",".toList) (PostExporter.csvHeaders opts) ∧
      (∀ f ∈ PostExporter.csvRow opts post, ∃ mid, f = '"' :: (mid ++ ['"'])) ∧
      quoted (csvEscQuotes post.title) ∈ PostExporter.csvRow opts post ∧
      quoted (csvEscQuotes ("My \"Great\" Post".toList)) =
        ("\"My \"\"Great\"\" Post\"".toList) ∧
      ('\n' ∉ csvEscNewlines s) ∧
      csvEscNewlines (csvEscQuotes ("a\nb".toList)) = "a\\nb".toList := by
  refine ⟨?_, ?_, ?_, by decide, csvEscNewlines_no_newline s, by decide⟩
  · rw [PostExporter.exportCSV, List.append_assoc, List.takeWhile_append_of_pos]
    · simp
    · by_cases h : opts.includeContent <;>
        · simp [PostExporter.csvHeaders, h]
          decide
  · intro f hf
    by_cases h : opts.includeContent <;>
      · simp [PostExporter.csvRow, h] at hf
        rcases hf with rfl | rfl | rfl | rfl | rfl | rfl | rfl | rfl | rfl | rfl |
          rfl | rfl | rfl | rfl | rfl | rfl
        all_goals exact ⟨_, rfl⟩
  · by_cases h : opts.includeContent <;> simp [PostExporter.csvRow, h]

/-! ## C6 -/

/-- Looking up after an in-place bump of key `t`: the `t` entry is
incremented, every other key is untouched. -/
theorem lookup_map_bumpAt (t u : JStr) :
    ∀ m : List (JStr × Nat),
      (m.map fun p => if p.1 = t then (p.1, p.2 + 1) else p).lookup u =
        if u = t then (m.lookup t).map (· + 1) else m.lookup u := by
  intro m
  induction m with
  | nil => by_cases h : u = t <;> simp [h]
  | cons q m ih =>
    obtain ⟨k, w⟩ := q
    by_cases hkt : k = t
    · subst hkt
      by_cases hu : u = k
      · subst hu
        simp [List.lookup_cons]
      · have hbeq : (u == k) = false := beq_eq_false_iff_ne.mpr hu
        simp [List.lookup_cons, hbeq, hu, ih]
    · have hbkt : (t == k) = false := beq_eq_false_iff_ne.mpr (Ne.symm hkt)
      by_cases hu : u = k
      · subst hu
        simp [List.lookup_cons, hkt, hbkt]
      · have hbeq : (u == k) = false := beq_eq_false_iff_ne.mpr hu
        simp [List.lookup_cons, hkt, hbeq, hbkt, hu, ih]

/-- `bumpTag` and lookup: the bumped key reads one more than before
(zero-defaulted), every other key is unchanged. -/
theorem bumpTag_lookup (m : List (JStr × Nat)) (t u : JStr) :
    (ReportGenerator.bumpTag m t).lookup u =
      if u = t then some ((m.lookup t).getD 0 + 1) else m.lookup u := by
  unfold ReportGenerator.bumpTag
  by_cases hs : (m.lookup t).isSome
  · simp only [hs, if_true]
    rw [lookup_map_bumpAt]
    obtain ⟨v, hv⟩ := Option.isSome_iff_exists.mp hs
    by_cases hu : u = t <;> simp [hu, hv]
  · have hnone : m.lookup t = none := by
      cases h : m.lookup t with
      | none => rfl
      | some v => rw [h] at hs; simp at hs
    by_cases hu : u = t
    · subst hu
      simp [hnone, List.lookup_append, List.lookup_cons]
    · have hbeq : (u == t) = false := beq_eq_false_iff_ne.mpr hu
      simp [hnone, hu, List.lookup_append, List.lookup_cons, hbeq]

/-- `bumpTag` keeps the key list duplicate-free. -/
theorem bumpTag_keys_nodup (m : List (JStr × Nat)) (t : JStr)
    (h : (m.map Prod.fst).Nodup) :
    ((ReportGenerator.bumpTag m t).map Prod.fst).Nodup := by
  unfold ReportGenerator.bumpTag
  by_cases hs : (m.lookup t).isSome
  · simp only [hs, if_true]
    have hkeys : ((m.map fun p => if p.1 = t then (p.1, p.2 + 1) else p).map Prod.fst) =
        m.map Prod.fst := by
      rw [List.map_map]
      apply List.map_congr_left
      intro p _
      by_cases h1 : p.1 = t <;> simp [h1]
    rw [hkeys]
    exact h
  · have hnone : m.lookup t = none := by
      cases hx : m.lookup t with
      | none => rfl
      | some v => rw [hx] at hs; simp at hs
    have hnotmem : t ∉ m.map Prod.fst := by
      rw [List.lookup_eq_none_iff] at hnone
      intro hmem
      obtain ⟨p, hp, hfst⟩ := List.mem_map.mp hmem
      have := hnone p hp
      simp [hfst] at this
    simp only [hs, if_false, List.map_append]
    simp [List.nodup_append, h, hnotmem]

/-- Folding `bumpTag` over a tag list adds, key by key, exactly the
occurrence count of that key. -/
theorem foldl_bumpTag_lookup (u : JStr) :
    ∀ (ts : List JStr) (m : List (JStr × Nat)),
      ((ts.foldl ReportGenerator.bumpTag m).lookup u).getD 0 =
        (m.lookup u).getD 0 + ts.count u := by
  intro ts
  induction ts with
  | nil => simp
  | cons t ts ih =>
    intro m
    rw [List.foldl_cons, ih, bumpTag_lookup]
    by_cases hu : u = t
    · subst hu
      simp [List.count_cons]
      omega
    · have hbeq : (t == u) = false := beq_eq_false_iff_ne.mpr (Ne.symm hu)
      simp [List.count_cons, hu, hbeq]

/-- Folding `bumpTag` keeps the key list duplicate-free. -/
theorem foldl_bumpTag_nodup :
    ∀ (ts : List JStr) (m : List (JStr × Nat)),
      (m.map Prod.fst).Nodup →
      (((ts.foldl ReportGenerator.bumpTag m)).map Prod.fst).Nodup := by
  intro ts
  induction ts with
  | nil => intro m h; exact h
  | cons t ts ih =>
    intro m h
    exact ih _ (bumpTag_keys_nodup m t h)

/-- With duplicate-free keys, membership determines the lookup. -/
theorem lookup_of_mem_nodup :
    ∀ (m : List (JStr × Nat)), (m.map Prod.fst).Nodup →
      ∀ pr ∈ m, m.lookup pr.1 = some pr.2 := by
  intro m
  induction m with
  | nil => intro _ pr h; simp at h
  | cons q m ih =>
    intro hnd pr hpr
    obtain ⟨k, v⟩ := q
    simp only [List.map_cons, List.nodup_cons] at hnd
    rcases List.mem_cons.mp hpr with rfl | hpr
    · simp
    · have hne : pr.1 ≠ k := by
        intro heq
        exact hnd.1 (heq ▸ List.mem_map_of_mem Prod.fst hpr)
      have hbeq : (pr.1 == k) = false := beq_eq_false_iff_ne.mpr hne
      rw [List.lookup_cons]
      simp [hbeq]
      exact ih hnd.2 pr hpr

/-- The nested per-post fold equals the fold over all tags in encounter
order. -/
theorem tagCounts_eq_foldl_flatten (posts : List WixBlogPost) :
    ReportGenerator.tagCounts posts =
      ((posts.map (·.hashtags)).flatten).foldl ReportGenerator.bumpTag [] := by
  suffices h : ∀ m, posts.foldl (fun m p => p.hashtags.foldl ReportGenerator.bumpTag m) m =
      ((posts.map (·.hashtags)).flatten).foldl ReportGenerator.bumpTag m from h []
  induction posts with
  | nil => intro m; rfl
  | cons p ps ih =>
    intro m
    simp only [List.map_cons, List.flatten_cons, List.foldl_append, List.foldl_cons]
    exact ih _

/-- The stable insertion is a permutation. -/
theorem insertByCountDesc_perm (x : JStr × Nat) :
    ∀ l, List.Perm (ReportGenerator.insertByCountDesc x l) (x :: l) := by
  intro l
  induction l with
  | nil => exact List.Perm.refl _
  | cons y ys ih =>
    unfold ReportGenerator.insertByCountDesc
    by_cases h : y.2 > x.2
    · simp only [h, if_true]
      exact (ih.cons y).trans (List.Perm.swap x y ys)
    · simp only [h, if_false]
      exact List.Perm.refl _

/-- The stable sort is a permutation. -/
theorem sortByCountDesc_perm :
    ∀ l, List.Perm (ReportGenerator.sortByCountDesc l) l := by
  intro l
  induction l with
  | nil => exact List.Perm.refl _
  | cons x xs ih =>
    exact (insertByCountDesc_perm x _).trans (ih.cons x)

/-- The stable insertion preserves descending order by count. -/
theorem insertByCountDesc_pairwise (x : JStr × Nat) :
    ∀ l, l.Pairwise (fun a b => b.2 ≤ a.2) →
      (ReportGenerator.insertByCountDesc x l).Pairwise (fun a b => b.2 ≤ a.2) := by
  intro l
  induction l with
  | nil => intro _; simp [ReportGenerator.insertByCountDesc]
  | cons y ys ih =>
    intro hp
    rw [List.pairwise_cons] at hp
    unfold ReportGenerator.insertByCountDesc
    by_cases h : y.2 > x.2
    · simp only [h, if_true]
      rw [List.pairwise_cons]
      refine ⟨?_, ih hp.2⟩
      intro z hz
      have hz2 := (insertByCountDesc_perm x ys).mem_iff.mp hz
      rcases List.mem_cons.mp hz2 with rfl | hz3
      · omega
      · exact hp.1 z hz3
    · simp only [h, if_false]
      rw [List.pairwise_cons]
      refine ⟨?_, List.pairwise_cons.mpr hp⟩
      intro z hz
      rcases List.mem_cons.mp hz with rfl | hz3
      · omega
      · have := hp.1 z hz3
        omega

/-- The stable sort yields descending order by count. -/
theorem sortByCountDesc_pairwise :
    ∀ l, (ReportGenerator.sortByCountDesc l).Pairwise (fun a b => b.2 ≤ a.2) := by
  intro l
  induction l with
  | nil => simp [ReportGenerator.sortByCountDesc]
  | cons x xs ih =>
    exact insertByCountDesc_pairwise x _ ih


/-- The first-encounter index only looks at the prefix up to the first
occurrence: appending cannot change it for a tag already present. -/
theorem firstEncIdx_append_left (t : JStr) :
    ∀ l l' : List JStr, t ∈ l → firstEncIdx t (l ++ l') = firstEncIdx t l := by
  intro l
  induction l with
  | nil => intro l' h; simp at h
  | cons u us ih =>
    intro l' h
    by_cases hu : u = t
    · simp [firstEncIdx, hu]
    · rcases List.mem_cons.mp h with rfl | h2
      · exact absurd rfl hu
      · simp [firstEncIdx, hu, ih l' h2]

/-- A present tag's first-encounter index is inside the list. -/
theorem firstEncIdx_lt_length (t : JStr) :
    ∀ l : List JStr, t ∈ l → firstEncIdx t l < l.length := by
  intro l
  induction l with
  | nil => intro h; simp at h
  | cons u us ih =>
    intro h
    by_cases hu : u = t
    · simp [firstEncIdx, hu]
    · rcases List.mem_cons.mp h with rfl | h2
      · exact absurd rfl hu
      · simp only [firstEncIdx, hu, if_false, List.length_cons]
        exact Nat.succ_lt_succ (ih h2)

/-- An absent tag appended at the end is first encountered exactly there. -/
theorem firstEncIdx_append_self (t : JStr) :
    ∀ l : List JStr, t ∉ l → firstEncIdx t (l ++ [t]) = l.length := by
  intro l
  induction l with
  | nil => simp [firstEncIdx]
  | cons u us ih =>
    intro h
    have hu : u ≠ t := fun heq => h (heq ▸ List.mem_cons_self u us)
    have h2 : t ∉ us := fun hm => h (List.mem_cons_of_mem u hm)
    simp [firstEncIdx, hu, ih h2]

/-- The in-place bump keeps the key list unchanged. -/
theorem bumpAt_keys (t : JStr) (m : List (JStr × Nat)) :
    ((m.map fun p => if p.1 = t then (p.1, p.2 + 1) else p).map Prod.fst) =
      m.map Prod.fst := by
  rw [List.map_map]
  apply List.map_congr_left
  intro p _
  by_cases h1 : p.1 = t <;> simp [h1]

/-- Every key of the fold comes from the accumulator or the scanned tags. -/
theorem foldl_bumpTag_key_mem :
    ∀ (ts : List JStr) (m : List (JStr × Nat)) (p : JStr × Nat),
      p ∈ ts.foldl ReportGenerator.bumpTag m →
      p.1 ∈ m.map Prod.fst ∨ p.1 ∈ ts := by
  intro ts
  induction ts with
  | nil =>
    intro m p hp
    exact Or.inl (List.mem_map_of_mem Prod.fst hp)
  | cons t ts ih =>
    intro m p hp
    rw [List.foldl_cons] at hp
    rcases ih _ p hp with h | h
    · unfold ReportGenerator.bumpTag at h
      by_cases hs : (m.lookup t).isSome
      · rw [if_pos hs, bumpAt_keys] at h
        exact Or.inl h
      · rw [if_neg hs, List.map_append] at h
        rcases List.mem_append.mp h with h2 | h2
        · exact Or.inl h2
        · simp at h2
          exact Or.inr (by rw [h2]; exact List.mem_cons_self t ts)
    · exact Or.inr (List.mem_cons_of_mem t h)

/-- A scanned tag always ends up as a key of the fold. -/
theorem foldl_bumpTag_mem_isSome :
    ∀ (ts : List JStr) (m : List (JStr × Nat)) (u : JStr), u ∈ ts →
      ((ts.foldl ReportGenerator.bumpTag m).lookup u).isSome := by
  intro ts m u hu
  have h := foldl_bumpTag_lookup u ts m
  have hc : 0 < ts.count u := List.count_pos_iff.mpr hu
  cases hl : (ts.foldl ReportGenerator.bumpTag m).lookup u with
  | none => rw [hl] at h; simp at h; omega
  | some v => simp

/-- The fold's keys are pairwise ordered by first encounter: the JS `Map`
appends each newly seen tag, so earlier entries were seen earlier. -/
theorem foldl_bumpTag_pairwise_firstEncIdx :
    ∀ ts : List JStr,
      (ts.foldl ReportGenerator.bumpTag []).Pairwise
        (fun a b => firstEncIdx a.1 ts < firstEncIdx b.1 ts) := by
  intro ts
  induction ts using List.reverseRecOn with
  | nil => simp
  | append_singleton ts t ih =>
    rw [List.foldl_append, List.foldl_cons, List.foldl_nil]
    have hkey : ∀ p ∈ ts.foldl ReportGenerator.bumpTag [], p.1 ∈ ts := by
      intro p hp
      rcases foldl_bumpTag_key_mem ts [] p hp with h | h
      · simp at h
      · exact h
    have hidx : ∀ p ∈ ts.foldl ReportGenerator.bumpTag [],
        firstEncIdx p.1 (ts ++ [t]) = firstEncIdx p.1 ts := by
      intro p hp
      exact firstEncIdx_append_left p.1 ts [t] (hkey p hp)
    rw [ReportGenerator.bumpTag]
    by_cases hs : ((ts.foldl ReportGenerator.bumpTag []).lookup t).isSome
    · rw [if_pos hs]
      rw [List.pairwise_map]
      refine ih.imp_of_mem ?_
      intro a b ha hb hab
      have hfa : ((fun p => if p.1 = t then (p.1, p.2 + 1) else p) a).1 = a.1 := by
        by_cases h1 : a.1 = t <;> simp [h1]
      have hfb : ((fun p => if p.1 = t then (p.1, p.2 + 1) else p) b).1 = b.1 := by
        by_cases h1 : b.1 = t <;> simp [h1]
      rw [hfa, hfb, hidx a ha, hidx b hb]
      exact hab
    · rw [if_neg hs]
      have htnot : t ∉ ts := fun hmem => hs (foldl_bumpTag_mem_isSome ts [] t hmem)
      rw [List.pairwise_append]
      refine ⟨ih.imp_of_mem ?_, List.pairwise_singleton _ _, ?_⟩
      · intro a b ha hb hab
        rw [hidx a ha, hidx b hb]
        exact hab
      · intro a ha b hb
        have hb2 : b = (t, 1) := by simpa using hb
        rw [hidx a ha, hb2]
        have ht : firstEncIdx t (ts ++ [t]) = ts.length := firstEncIdx_append_self t ts htnot
        rw [ht]
        exact firstEncIdx_lt_length a.1 ts (hkey a ha)

/-- Stability of the insertion: a property of equal-count pairs that holds
along the input order is preserved, because the inserted element passes
only over strictly greater counts. -/
theorem insertByCountDesc_pairwise_stable (R : JStr × Nat → JStr × Nat → Prop)
    (x : JStr × Nat) :
    ∀ l, l.Pairwise (fun a b => a.2 = b.2 → R a b) →
      (∀ z ∈ l, x.2 = z.2 → R x z) →
      (ReportGenerator.insertByCountDesc x l).Pairwise
        (fun a b => a.2 = b.2 → R a b) := by
  intro l
  induction l with
  | nil =>
    intro _ _
    simp [ReportGenerator.insertByCountDesc]
  | cons y ys ih =>
    intro hp hx
    rw [List.pairwise_cons] at hp
    unfold ReportGenerator.insertByCountDesc
    by_cases h : y.2 > x.2
    · rw [if_pos h]
      rw [List.pairwise_cons]
      constructor
      · intro z hz
        rcases List.mem_cons.mp ((insertByCountDesc_perm x ys).mem_iff.mp hz)
          with rfl | hz2
        · intro heq; omega
        · exact hp.1 z hz2
      · exact ih hp.2 (fun z hz => hx z (List.mem_cons_of_mem y hz))
    · rw [if_neg h]
      rw [List.pairwise_cons]
      exact ⟨fun z hz => hx z hz, List.pairwise_cons.mpr hp⟩

/-- Stability of the whole sort: any equal-count-conditional property of
the input order survives the stable descending sort. -/
theorem sortByCountDesc_pairwise_stable (R : JStr × Nat → JStr × Nat → Prop) :
    ∀ l, l.Pairwise (fun a b => a.2 = b.2 → R a b) →
      (ReportGenerator.sortByCountDesc l).Pairwise
        (fun a b => a.2 = b.2 → R a b) := by
  intro l
  induction l with
  | nil =>
    intro _
    simp [ReportGenerator.sortByCountDesc]
  | cons x xs ih =>
    intro hp
    rw [List.pairwise_cons] at hp
    exact insertByCountDesc_pairwise_stable R x _ (ih hp.2)
      (fun z hz => hp.1 z ((sortByCountDesc_perm xs).mem_iff.mp hz))

/-- C6: `tagsTop10` lists at most 10 entries, in descending count order,
ties between equal counts broken by the order in which the tags were
first encountered while scanning the posts; every listed count is the
tag's true frequency over all posts' tags; no dropped entry outranks a
listed one; the spec's example — tags a,a,b,a,b,c across posts — ranks
a(3), b(2), c(1); and a tied example — tags b,a then a,b — lists b(2)
before a(2) because b was seen first. -/
theorem c6_tags_top10 (posts : List WixBlogPost) :
    (ReportGenerator.tagsTop10 posts).length ≤ 10 ∧
      (ReportGenerator.tagsTop10 posts).Pairwise (fun a b => b.2 ≤ a.2) ∧
      (ReportGenerator.tagsTop10 posts).Pairwise (fun a b => a.2 = b.2 →
        firstEncIdx a.1 ((posts.map (·.hashtags)).flatten) <
          firstEncIdx b.1 ((posts.map (·.hashtags)).flatten)) ∧
      (∀ pr ∈ ReportGenerator.tagsTop10 posts,
        pr.2 = ((posts.map (·.hashtags)).flatten).count pr.1) ∧
      (∀ x ∈ ReportGenerator.tagsTop10 posts,
        ∀ y ∈ (ReportGenerator.sortByCountDesc (ReportGenerator.tagCounts posts)).drop 10,
          y.2 ≤ x.2) ∧
      ReportGenerator.tagsTop10 [c6PostA, c6PostB] =
        [("a".toList, 3), ("b".toList, 2), ("c".toList, 1)] ∧
      ReportGenerator.tagsTop10 [c6PostC, c6PostD] =
        [("b".toList, 2), ("a".toList, 2)] := by
  have hsorted := sortByCountDesc_pairwise (ReportGenerator.tagCounts posts)
  have hperm := sortByCountDesc_perm (ReportGenerator.tagCounts posts)
  have hnd : ((ReportGenerator.tagCounts posts).map Prod.fst).Nodup := by
    rw [tagCounts_eq_foldl_flatten]
    exact foldl_bumpTag_nodup _ [] (by simp)
  refine ⟨List.length_take_le 10 _, ?_, ?_, ?_, ?_, by decide, by decide⟩
  · exact hsorted.sublist (List.take_sublist 10 _)
  · have h0 := foldl_bumpTag_pairwise_firstEncIdx ((posts.map (·.hashtags)).flatten)
    rw [← tagCounts_eq_foldl_flatten] at h0
    have h1 : (ReportGenerator.tagCounts posts).Pairwise
        (fun a b => a.2 = b.2 →
          firstEncIdx a.1 ((posts.map (fun p => p.hashtags)).flatten) <
            firstEncIdx b.1 ((posts.map (fun p => p.hashtags)).flatten)) :=
      h0.imp (fun h => fun _ => h)
    have h2 := sortByCountDesc_pairwise_stable _ _ h1
    exact h2.sublist (List.take_sublist 10 _)
  · intro pr hpr
    have hmem : pr ∈ ReportGenerator.tagCounts posts :=
      hperm.mem_iff.mp (List.take_subset 10 _ hpr)
    have hlk := lookup_of_mem_nodup _ hnd pr hmem
    have hfold := foldl_bumpTag_lookup pr.1 ((posts.map (·.hashtags)).flatten) []
    rw [← tagCounts_eq_foldl_flatten] at hfold
    rw [hlk] at hfold
    simpa using hfold
  · intro x hx y hy
    have := (List.take_append_drop 10
      (ReportGenerator.sortByCountDesc (ReportGenerator.tagCounts posts))) ▸ hsorted
    exact (List.pairwise_append.mp this).2.2 x hx y hy

/-! ## C5 -/

/-- A successful URL-tail match reconstructs its input. -/
theorem matchUrlTail_recon {scheme : JStr} {r : List Char} {url : JStr}
    {r3 : List Char} (h : matchUrlTail scheme r = some (url, r3)) :
    url = scheme ++ r.takeWhile isUrlChar ∧
      r = r.takeWhile isUrlChar ++ ')' :: r3 := by
  unfold matchUrlTail at h
  split at h
  next r3' heq =>
    by_cases he : (r.takeWhile isUrlChar).isEmpty
    · simp [he] at h
    · simp [he] at h
      obtain ⟨h1, h2⟩ := h
      subst h2
      refine ⟨h1.symm, ?_⟩
      conv_lhs => rw [← List.takeWhile_append_dropWhile (p := isUrlChar) (l := r)]
      rw [heq]
  next => simp at h

/-- A successful `https?://...` match reconstructs its input and captures
a non-empty URL. -/
theorem matchHttpUrl_recon {cs : List Char} {url : JStr} {r3 : List Char}
    (h : matchHttpUrl cs = some (url, r3)) :
    cs = url ++ ')' :: r3 ∧ 1 ≤ url.length := by
  unfold matchHttpUrl at h
  split at h
  next r =>
    obtain ⟨h1, h2⟩ := matchUrlTail_recon h
    subst h1
    constructor
    · conv_lhs => rw [h2]
      simp
    · simp
  next r =>
    obtain ⟨h1, h2⟩ := matchUrlTail_recon h
    subst h1
    constructor
    · conv_lhs => rw [h2]
      simp
    · simp
  next => simp at h

/-- A successful whole-match of the rewrite regex reconstructs its input
(the matched text is exactly `![alt](url)`), and the remainder is
strictly shorter. -/
theorem matchImageRef_recon {cs : List Char} {alt url : JStr}
    {rest : List Char} (h : matchImageRef cs = some (alt, url, rest)) :
    cs = refText alt url ++ rest ∧ rest.length < cs.length := by
  unfold matchImageRef at h
  split at h
  next rest0 =>
    split at h
    next r2 heq =>
      cases hmu : matchHttpUrl r2 with
      | none => rw [hmu] at h; simp at h
      | some p =>
        obtain ⟨u', r3'⟩ := p
        rw [hmu] at h
        simp only [Option.some.injEq, Prod.mk.injEq] at h
        obtain ⟨ha, hu, hr⟩ := h
        subst hu hr
        obtain ⟨hrec, hlen⟩ := matchHttpUrl_recon hmu
        have hsplit : rest0 = alt ++ (']' :: '(' :: r2) := by
          rw [← ha]
          conv_lhs => rw [← List.takeWhile_append_dropWhile
            (p := fun c => decide (c ≠ ']')) (l := rest0)]
          rw [heq]
        have hgoal : ('!' :: '[' :: rest0 : List Char) =
            refText alt u' ++ r3' := by
          rw [hsplit, hrec]
          simp [refText]
        refine ⟨hgoal, ?_⟩
        have hL := congrArg List.length hgoal
        simp [refText] at hL
        simp only [List.length_cons]
        omega
    next => simp at h
  next => simp at h

/-- The scan decomposition is faithful: segments flatten back to the
input, and the rewrite scan renders exactly the segments. -/
theorem mdSegScan_spec :
    ∀ fuel, ∀ cs : List Char, cs.length ≤ fuel →
      (((mdSegScan fuel cs).map segText).flatten = cs ∧
        ∀ m, rewriteScan fuel m cs =
          ((mdSegScan fuel cs).map (segRender m)).flatten) := by
  intro fuel
  induction fuel with
  | zero =>
    intro cs h
    have hnil : cs = [] := List.length_eq_zero.mp (Nat.le_zero.mp h)
    subst hnil
    exact ⟨rfl, fun m => rfl⟩
  | succ fuel ih =>
    intro cs hlen
    cases cs with
    | nil => exact ⟨rfl, fun m => rfl⟩
    | cons c cs' =>
      cases hm : matchImageRef (c :: cs') with
      | none =>
        have h1 := ih cs' (by simp at hlen; omega)
        constructor
        · simp only [mdSegScan, hm, List.map_cons, List.flatten_cons, segText]
          rw [h1.1]
          rfl
        · intro m
          simp only [rewriteScan, mdSegScan, hm, List.map_cons,
            List.flatten_cons, segRender]
          rw [h1.2 m]
          rfl
      | some p =>
        obtain ⟨alt, url, rest⟩ := p
        obtain ⟨hrec, hlt⟩ := matchImageRef_recon hm
        have h1 := ih rest (by simp at hlen hlt ⊢; omega)
        constructor
        · simp only [mdSegScan, hm, List.map_cons, List.flatten_cons, segText]
          rw [h1.1, ← hrec]
        · intro m
          simp only [rewriteScan, mdSegScan, hm, List.map_cons,
            List.flatten_cons, segRender]
          rw [h1.2 m]

/-- C5: a markdown string decomposes into literal chars and the inline
image references matched by the rewrite regex; rewriting renders exactly
those segments — a reference whose URL is a key of the mapping becomes
`![alt](localPath)` (alt preserved), every other segment is emitted
verbatim — and rewriting with an empty mapping is the identity. -/
theorem c5_rewrite_exactness (md : JStr) (m : List (JStr × JStr)) :
    ((mdSegments md).map segText).flatten = md ∧
      rewriteMarkdownImageUrls md m = ((mdSegments md).map (segRender m)).flatten ∧
      (∀ alt url, segRender m (.ref alt url) =
        (match m.lookup url with
         | some p => refText alt p
         | none => refText alt url)) ∧
      rewriteMarkdownImageUrls md [] = md := by
  have spec := mdSegScan_spec md.length md le_rfl
  refine ⟨spec.1, spec.2 m, fun alt url => rfl, ?_⟩
  have hmapeq : ∀ segs : List MdSeg, segs.map (segRender []) = segs.map segText := by
    intro segs
    apply List.map_congr_left
    intro seg _
    cases seg <;> rfl
  calc rewriteMarkdownImageUrls md [] =
      ((mdSegments md).map (segRender [])).flatten := spec.2 []
    _ = ((mdSegments md).map segText).flatten := by rw [hmapeq]
    _ = md := spec.1

/-! ## C1 -/

/-- C1 counterexample: a post whose cover URL also occurs inline, with
identical bytes served for both fetches, persists TWO files in the post's
image directory — `cover-<hash>.png` and `image-<hash>.png` — not one:
the filename prefix encodes the task role. -/
theorem c1_counterexample :
    ((ImageDownloader.downloadAllImages dlOpts [c1Post] okEnv).writes.map Prod.fst =
        ["out/images/post-one/cover-5289df73.png".toList,
         "out/images/post-one/image-5289df73.png".toList]) ∧
      ((ImageDownloader.downloadAllImages dlOpts [c1Post] okEnv).writes.map Prod.snd =
        [[1, 2, 3], [1, 2, 3]]) ∧
      ("out/images/post-one/cover-5289df73.png".toList ≠
        "out/images/post-one/image-5289df73.png".toList) := by
  decide

/-- C1 amended: a successful download persists exactly one file whose
path is a function of the images directory, post slug, task role, URL and
content bytes only — so identical content always yields the identical
filename within one role, and re-downloads overwrite idempotently —
while a URL referenced as both cover and inline yields two files, one per
role prefix; duplicate inline references to one URL within a post
de-duplicate to a single download. -/
theorem c1_amended_filename_stability :
    (∀ (t : ImageTask) (imagesDir : JStr) (env : Nat → FetchRes)
        (reqIdx retry : Nat) (body : List Nat), 0 < retry →
      attemptOutcome (env reqIdx) = .inr body →
      (ImageDownloader.downloadSingleImage t imagesDir env reqIdx retry).writes =
        [(createSafePath [createSafePath [imagesDir, t.postSlug],
            rolePrefix t.type ++ "-".toList ++
              generateImageHash t.url (some body) ++
              getFileExtensionFromUrl t.url], body)]) ∧
    ((ImageDownloader.downloadAllImages dlOpts [c1Post] okEnv).writes.map Prod.fst =
      ["out/images/post-one/cover-5289df73.png".toList,
       "out/images/post-one/image-5289df73.png".toList]) ∧
    ((ImageDownloader.downloadAllImages dlOpts [c1bPost] okEnv).writes.map Prod.fst =
      ["out/images/post-one/image-5289df73.png".toList]) := by
  refine ⟨?_, by decide, by decide⟩
  intro t imagesDir env reqIdx retry body hpos hok
  obtain ⟨k, rfl⟩ : ∃ k, retry = k + 1 :=
    ⟨retry - 1, (Nat.succ_pred_eq_of_pos hpos).symm⟩
  simp [ImageDownloader.downloadSingleImage, ImageDownloader.dlGo, hok]

/-- C1 amended witness: the success branch evaluated at a concrete task
and environment. -/
theorem c1_amended_filename_stability_witness :
    (0 < 3 ∧ attemptOutcome (okEnv 0) = .inr [1, 2, 3]) ∧
      (ImageDownloader.downloadSingleImage wTask ("out/images".toList) okEnv 0 3).writes =
        [(("out/images/post-one/cover-5289df73.png").toList, [1, 2, 3])] :=
  ⟨⟨by decide, by decide⟩, by
    have h := c1_amended_filename_stability.1 wTask ("out/images".toList) okEnv 0 3
      [1, 2, 3] (by decide) (by decide)
    rw [h]
    decide⟩

/-! ## C7 -/

/-- `jfuel` is positive. -/
theorem jfuel_pos (v : Json) : 1 ≤ jfuel v := by
  cases v <;> simp [jfuel]

/-- Rendering a digit yields a digit char. -/
theorem digitChar_isDigit {d : Nat} (h : d < 10) :
    isDigitChar (digitChar d) = true := by
  interval_cases d <;> decide

/-- Reading back a rendered digit. -/
theorem digitVal_digitChar {d : Nat} (h : d < 10) :
    digitVal (digitChar d) = d := by
  interval_cases d <;> decide

/-- A digit char is one of the ten digits. -/
theorem isDigitChar_cases {c : Char} (h : isDigitChar c = true) :
    c = '0' ∨ c = '1' ∨ c = '2' ∨ c = '3' ∨ c = '4' ∨ c = '5' ∨ c = '6' ∨
      c = '7' ∨ c = '8' ∨ c = '9' := by
  unfold isDigitChar at h
  simp at h
  obtain ⟨h1, h2⟩ := h
  have hc : c = Char.ofNat c.toNat := (Char.ofNat_toNat c).symm
  set n := c.toNat with hn
  interval_cases n <;> (rw [hc]; decide)

/-- A digit char is not whitespace and not any parser dispatch char. -/
theorem isDigit_not_special {c : Char} (h : isDigitChar c = true) :
    isWsChar c = false ∧ c ≠ 'n' ∧ c ≠ 't' ∧ c ≠ 'f' ∧ c ≠ '"' ∧ c ≠ '[' ∧
      c ≠ '\x7b' ∧ c ≠ '-' ∧ c ≠ ']' ∧ c ≠ '\x7d' ∧ c ≠ ',' ∧ c ≠ ':' := by
  rcases isDigitChar_cases h with rfl | rfl | rfl | rfl | rfl | rfl | rfl | rfl |
    rfl | rfl <;> decide

/-- Rendered naturals are non-empty all-digit strings that read back. -/
theorem natToCharsF_spec :
    ∀ fuel n, n < fuel →
      natToCharsF fuel n ≠ [] ∧ (∀ c ∈ natToCharsF fuel n, isDigitChar c = true) ∧
        parseNatVal (natToCharsF fuel n) = n := by
  intro fuel
  induction fuel with
  | zero => intro n h; omega
  | succ fuel ih =>
    intro n h
    by_cases h10 : n < 10
    · refine ⟨by simp [natToCharsF, h10], ?_, ?_⟩
      · intro c hc
        simp [natToCharsF, h10] at hc
        rw [hc]
        exact digitChar_isDigit h10
      · simp [natToCharsF, h10, parseNatVal, digitVal_digitChar h10]
    · have hrec := ih (n / 10) (by omega)
      have hmod : n % 10 < 10 := Nat.mod_lt _ (by omega)
      refine ⟨by simp [natToCharsF, h10], ?_, ?_⟩
      · intro c hc
        simp [natToCharsF, h10] at hc
        rcases hc with hc | hc
        · exact hrec.2.1 c hc
        · rw [hc]
          exact digitChar_isDigit hmod
      · simp only [natToCharsF, h10, if_false]
        unfold parseNatVal
        rw [List.foldl_append]
        have hv := hrec.2.2
        unfold parseNatVal at hv
        rw [hv]
        simp [digitVal_digitChar hmod]
        omega

/-- `natToChars` facts. -/
theorem natToChars_spec (n : Nat) :
    natToChars n ≠ [] ∧ (∀ c ∈ natToChars n, isDigitChar c = true) ∧
      parseNatVal (natToChars n) = n :=
  natToCharsF_spec (n + 1) n (by omega)

/-- Reading back a rendered hex digit. -/
theorem parseHexDigit_hexDigitChar {n : Nat} (h : n < 16) :
    parseHexDigit (hexDigitChar n) = some n := by
  interval_cases n <;> decide

/-- Escaping does not shorten a string. -/
theorem jEscape_length (s : JStr) : s.length ≤ (jEscape s).length := by
  induction s with
  | nil => simp [jEscape]
  | cons c s ih =>
    have h1 : 1 ≤ (jEscapeChar c).length := by
      unfold jEscapeChar
      repeat' split
      all_goals simp
    simp only [jEscape, List.map_cons, List.flatten_cons, List.length_append,
      List.length_cons]
    unfold jEscape at ih
    omega

/-- Skipping whitespace jumps over an all-whitespace prefix. -/
theorem skipWs_append_ws {w rest : List Char} (hw : ∀ c ∈ w, isWsChar c = true) :
    skipWs (w ++ rest) = skipWs rest := by
  unfold skipWs
  rw [List.dropWhile_append_of_pos hw]

/-- Indentation is whitespace. -/
theorem jInd_ws (d : Nat) : ∀ c ∈ jInd d, isWsChar c = true := by
  intro c hc
  unfold jInd at hc
  rw [List.mem_replicate] at hc
  rw [hc.2]
  rfl

theorem parseStringBody_escape :
    ∀ (s : JStr) (fuel : Nat) (rest : List Char), s.length < fuel →
      parseStringBody fuel (jEscape s ++ '"' :: rest) = some (s, rest) := by
  intro s
  induction s with
  | nil =>
    intro fuel rest h
    cases fuel with
    | zero => omega
    | succ fuel => simp [parseStringBody, jEscape]
  | cons c s ih =>
    intro fuel rest h
    cases fuel with
    | zero => omega
    | succ fuel =>
    have hs : s.length < fuel := by
      simp only [List.length_cons] at h
      omega
    have hih := ih fuel rest hs
    have hstep : jEscape (c :: s) = jEscapeChar c ++ jEscape s := by
      simp [jEscape]
    rw [hstep, List.append_assoc]
    unfold jEscapeChar
    by_cases h1 : c = '"'
    · subst h1
      simp [parseStringBody, escCharOf, hih]
    by_cases h2 : c = '\\'
    · subst h2
      simp [h1, parseStringBody, escCharOf, hih]
    by_cases h3 : c = '\x08'
    · subst h3
      simp [h1, h2, parseStringBody, escCharOf, hih]
    by_cases h4 : c = '\x0c'
    · subst h4
      simp [h1, h2, h3, parseStringBody, escCharOf, hih]
    by_cases h5 : c = '\n'
    · subst h5
      simp [h1, h2, h3, h4, parseStringBody, escCharOf, hih]
    by_cases h6 : c = '\r'
    · subst h6
      simp [h1, h2, h3, h4, h5, parseStringBody, escCharOf, hih]
    by_cases h7 : c = '\t'
    · subst h7
      simp [h1, h2, h3, h4, h5, h6, parseStringBody, escCharOf, hih]
    by_cases h8 : c.toNat < 32
    · simp only [h1, h2, h3, h4, h5, h6, h7, h8, if_false, if_true]
      have hdiv : c.toNat / 16 < 16 := by omega
      have hmod : c.toNat % 16 < 16 := by omega
      have hpd0 : parseHexDigit '0' = some 0 := by decide
      simp [parseStringBody, hpd0, parseHexDigit_hexDigitChar hdiv,
        parseHexDigit_hexDigitChar hmod, hih]
      have hcode : 16 * (c.toNat / 16) + c.toNat % 16 = c.toNat := by omega
      rw [hcode, Char.ofNat_toNat]
    · simp [h1, h2, h3, h4, h5, h6, h7, h8, parseStringBody, hih]

theorem emit_head_facts (d : Nat) (v : Json) :
    ∃ c t, emitJson d v = c :: t ∧ isWsChar c = false ∧ c ≠ ']' ∧ c ≠ '\x7d' := by
  cases v with
  | null => exact ⟨'n', ['u', 'l', 'l'], by simp [emitJson], by decide, by decide, by decide⟩
  | bool b =>
    cases b with
    | true => exact ⟨'t', ['r', 'u', 'e'], by simp [emitJson], by decide, by decide, by decide⟩
    | false =>
      exact ⟨'f', ['a', 'l', 's', 'e'], by simp [emitJson], by decide, by decide, by decide⟩
  | num n =>
    cases n with
    | ofNat m =>
      have hspec := natToChars_spec m
      obtain ⟨c, t, hct⟩ := List.exists_cons_of_ne_nil hspec.1
      have hdig : isDigitChar c = true := hspec.2.1 c (by rw [hct]; simp)
      have hsp := isDigit_not_special hdig
      refine ⟨c, t, ?_, hsp.1, hsp.2.2.2.2.2.2.2.2.1, hsp.2.2.2.2.2.2.2.2.2.1⟩
      simp only [emitJson, intToChars, Int.ofNat_eq_coe]
      rw [if_neg (by omega)]
      simpa using hct
    | negSucc m =>
      refine ⟨'-', natToChars (m + 1), ?_, by decide, by decide, by decide⟩
      simp only [emitJson, intToChars]
      rw [if_pos (Int.negSucc_lt_zero m)]
      simp [Int.natAbs_negSucc]
  | str s =>
    exact ⟨'"', jEscape s ++ ['"'], by simp [emitJson, jStrLit], by decide, by decide,
      by decide⟩
  | arr xs =>
    cases xs with
    | nil => exact ⟨'[', [']'], by simp [emitJson], by decide, by decide, by decide⟩
    | cons x xs =>
      exact ⟨'[', '\n' :: (jInd (d + 1) ++ (emitJson (d + 1) x ++
        (emitItemsRest (d + 1) xs ++ '\n' :: (jInd d ++ [']'])))),
        by simp [emitJson], by decide, by decide, by decide⟩
  | obj fs =>
    cases fs with
    | nil => exact ⟨'\x7b', ['\x7d'], by simp [emitJson], by decide, by decide, by decide⟩
    | cons f fs =>
      obtain ⟨k, v⟩ := f
      exact ⟨'\x7b', '\n' :: (jInd (d + 1) ++ (jStrLit k ++ ':' :: ' ' ::
        (emitJson (d + 1) v ++ (emitFieldsRest (d + 1) fs ++ '\n' :: (jInd d ++ ['\x7d']))))),
        by simp [emitJson], by decide, by decide, by decide⟩

theorem skipWs_cons_of_not_ws {c : Char} {t : List Char} (h : isWsChar c = false) :
    skipWs (c :: t) = c :: t := by
  simp [skipWs, List.dropWhile_cons, h]

theorem parseNumTail_emit (n : Nat) (neg : Bool) (rest : List Char)
    (hrest : ∀ c, rest.head? = some c → isDigitChar c = false) :
    parseNumTail (natToChars n ++ rest) neg =
      some (.num (if neg then -(n : Int) else (n : Int)), rest) := by
  have hspec := natToChars_spec n
  have htw : (natToChars n ++ rest).takeWhile isDigitChar = natToChars n := by
    rw [List.takeWhile_append_of_pos hspec.2.1]
    cases rest with
    | nil => simp
    | cons c t =>
      have hc := hrest c (by simp)
      simp [List.takeWhile_cons, hc]
  unfold parseNumTail
  rw [htw]
  have hne : (natToChars n).isEmpty = false := by
    cases hx : natToChars n with
    | nil => exact absurd hx hspec.1
    | cons a b => simp
  simp only [hne, Bool.false_eq_true, if_false]
  rw [hspec.2.2, List.drop_left]
  simp [Int.ofNat_eq_coe]

/-- Rendering a non-negative integer. -/
theorem intToChars_ofNat (m : Nat) : intToChars (Int.ofNat m) = natToChars m := by
  simp only [intToChars, Int.ofNat_eq_coe]
  rw [if_neg (by omega)]
  simp

/-- Rendering a negative integer. -/
theorem intToChars_negSucc (m : Nat) :
    intToChars (Int.negSucc m) = '-' :: natToChars (m + 1) := by
  simp only [intToChars]
  rw [if_pos (Int.negSucc_lt_zero m)]
  simp [Int.natAbs_negSucc]

mutual

theorem parseVal_emit (v : Json) :
    ∀ (d fuel : Nat) (w rest : List Char), jfuel v ≤ fuel →
      (∀ c ∈ w, isWsChar c = true) →
      (∀ c, rest.head? = some c → isDigitChar c = false) →
      parseVal fuel (w ++ emitJson d v ++ rest) = some (v, rest) := by
  intro d fuel w rest hfuel hw hrest
  cases fuel with
  | zero =>
    have := jfuel_pos v
    omega
  | succ f =>
  rw [List.append_assoc]
  cases v with
  | null =>
    have hskip : skipWs (w ++ (emitJson d .null ++ rest)) =
        'n' :: 'u' :: 'l' :: 'l' :: rest := by
      rw [skipWs_append_ws hw]
      simp [emitJson, skipWs, List.dropWhile_cons, isWsChar]
    simp only [parseVal, hskip]
    simp
  | bool b =>
    cases b with
    | true =>
      have hskip : skipWs (w ++ (emitJson d (.bool true) ++ rest)) =
          't' :: 'r' :: 'u' :: 'e' :: rest := by
        rw [skipWs_append_ws hw]
        simp [emitJson, skipWs, List.dropWhile_cons, isWsChar]
      simp only [parseVal, hskip]
      simp
    | false =>
      have hskip : skipWs (w ++ (emitJson d (.bool false) ++ rest)) =
          'f' :: 'a' :: 'l' :: 's' :: 'e' :: rest := by
        rw [skipWs_append_ws hw]
        simp [emitJson, skipWs, List.dropWhile_cons, isWsChar]
      simp only [parseVal, hskip]
      simp
  | str s =>
    have hskip : skipWs (w ++ (emitJson d (.str s) ++ rest)) =
        '"' :: (jEscape s ++ '"' :: rest) := by
      rw [skipWs_append_ws hw]
      simp [emitJson, jStrLit, skipWs, List.dropWhile_cons, isWsChar]
    simp only [parseVal, hskip]
    have hlen : s.length < (jEscape s ++ '"' :: rest).length + 1 := by
      have := jEscape_length s
      simp [List.length_append]
      omega
    simp only [if_neg (by decide : ¬('"' : Char) = 'n'),
      if_neg (by decide : ¬('"' : Char) = 't'), if_neg (by decide : ¬('"' : Char) = 'f'),
      if_pos rfl]
    rw [parseStringBody_escape s _ rest (by have := jEscape_length s; omega)]
    simp
  | num n =>
    cases n with
    | ofNat m =>
      have hspec := natToChars_spec m
      obtain ⟨c, t, hct⟩ := List.exists_cons_of_ne_nil hspec.1
      have hdig : isDigitChar c = true := hspec.2.1 c (by rw [hct]; simp)
      have hsp := isDigit_not_special hdig
      have hskip : skipWs (w ++ (emitJson d (.num (Int.ofNat m)) ++ rest)) =
          c :: (t ++ rest) := by
        rw [skipWs_append_ws hw]
        simp only [emitJson, intToChars_ofNat, hct, List.cons_append]
        exact skipWs_cons_of_not_ws hsp.1
      simp only [parseVal, hskip]
      have hnum := parseNumTail_emit m false rest hrest
      rw [hct] at hnum
      simp only [List.cons_append] at hnum
      rw [if_neg hsp.2.1, if_neg hsp.2.2.1, if_neg hsp.2.2.2.1, if_neg hsp.2.2.2.2.1,
        if_neg hsp.2.2.2.2.2.1, if_neg hsp.2.2.2.2.2.2.1, if_neg hsp.2.2.2.2.2.2.2.1,
        if_pos hdig, hnum]
      simp [Int.ofNat_eq_coe]
    | negSucc m =>
      have hskip : skipWs (w ++ (emitJson d (.num (Int.negSucc m)) ++ rest)) =
          '-' :: (natToChars (m + 1) ++ rest) := by
        rw [skipWs_append_ws hw]
        simp only [emitJson, intToChars_negSucc, List.cons_append]
        exact skipWs_cons_of_not_ws (by decide)
      simp only [parseVal, hskip]
      have hnum := parseNumTail_emit (m + 1) true rest hrest
      rw [if_neg (by decide : ¬('-' : Char) = 'n'),
        if_neg (by decide : ¬('-' : Char) = 't'),
        if_neg (by decide : ¬('-' : Char) = 'f'),
        if_neg (by decide : ¬('-' : Char) = '"'),
        if_neg (by decide : ¬('-' : Char) = '['),
        if_neg (by decide : ¬('-' : Char) = '\x7b')]
      simp [hnum, Int.negSucc_eq]
  | arr xs =>
    cases xs with
    | nil =>
      have hskip : skipWs (w ++ (emitJson d (.arr []) ++ rest)) = '[' :: ']' :: rest := by
        rw [skipWs_append_ws hw]
        simp [emitJson, skipWs, List.dropWhile_cons, isWsChar]
      simp only [parseVal, hskip]
      have hskip2 : skipWs (']' :: rest) = ']' :: rest :=
        skipWs_cons_of_not_ws (by decide)
      simp [hskip2]
    | cons x xs =>
      have hjf : jfuel (Json.arr (x :: xs)) = 2 + jfuel x + jfuelList xs := by
        simp [jfuel, jfuelList]
        omega
      have hfx : jfuel x ≤ f := by omega
      have hfxs : jfuelList xs ≤ f := by omega
      obtain ⟨cx, tx, hcx, hnws, hne1, hne2⟩ := emit_head_facts (d + 1) x
      have hA : ∀ c, (emitItemsRest (d + 1) xs ++
          '\n' :: (jInd d ++ ']' :: rest)).head? = some c → isDigitChar c = false := by
        cases xs with
        | nil =>
          intro c hc
          simp [emitItemsRest] at hc
          rw [← hc]
          decide
        | cons y ys =>
          intro c hc
          simp [emitItemsRest] at hc
          rw [← hc]
          decide
      have hx := parseVal_emit x (d + 1) f ('\n' :: jInd (d + 1))
        (emitItemsRest (d + 1) xs ++ '\n' :: (jInd d ++ ']' :: rest)) hfx
        (by
          intro c hc
          rcases List.mem_cons.mp hc with rfl | hc
          · rfl
          · exact jInd_ws _ c hc) hA
      simp only [List.cons_append, List.append_assoc] at hx
      have htail := parseArrTail_emit xs d f [x] rest hfxs
      have hskip : skipWs (w ++ (emitJson d (.arr (x :: xs)) ++ rest)) =
          '[' :: ('\n' :: (jInd (d + 1) ++ (emitJson (d + 1) x ++
            (emitItemsRest (d + 1) xs ++ '\n' :: (jInd d ++ (']' :: rest)))))) := by
        rw [skipWs_append_ws hw]
        simp only [emitJson, List.cons_append, List.append_assoc]
        exact skipWs_cons_of_not_ws (by decide)
      simp only [parseVal, hskip]
      rw [if_neg (by decide : ¬('[' : Char) = 'n'),
        if_neg (by decide : ¬('[' : Char) = 't'),
        if_neg (by decide : ¬('[' : Char) = 'f'),
        if_neg (by decide : ¬('[' : Char) = '"')]
      simp only [if_true]
      have hskipT : skipWs ('\n' :: (jInd (d + 1) ++ (emitJson (d + 1) x ++
          (emitItemsRest (d + 1) xs ++ '\n' :: (jInd d ++ (']' :: rest)))))) =
          cx :: (tx ++ (emitItemsRest (d + 1) xs ++ '\n' :: (jInd d ++ (']' :: rest)))) := by
        rw [show ('\n' :: (jInd (d + 1) ++ (emitJson (d + 1) x ++
            (emitItemsRest (d + 1) xs ++ '\n' :: (jInd d ++ (']' :: rest)))))) =
            ('\n' :: jInd (d + 1)) ++ (emitJson (d + 1) x ++
            (emitItemsRest (d + 1) xs ++ '\n' :: (jInd d ++ (']' :: rest)))) by simp]
        rw [skipWs_append_ws (by
          intro c hc
          rcases List.mem_cons.mp hc with rfl | hc
          · rfl
          · exact jInd_ws _ c hc)]
        rw [hcx, List.cons_append]
        exact skipWs_cons_of_not_ws hnws
      rw [hskipT]
      simp only [if_neg hne1]
      rw [hx]
      simp [htail]
  | obj fs =>
    cases fs with
    | nil =>
      have hskip : skipWs (w ++ (emitJson d (.obj []) ++ rest)) =
          '\x7b' :: '\x7d' :: rest := by
        rw [skipWs_append_ws hw]
        simp [emitJson, skipWs, List.dropWhile_cons, isWsChar]
      simp only [parseVal, hskip]
      have hskip2 : skipWs ('\x7d' :: rest) = '\x7d' :: rest :=
        skipWs_cons_of_not_ws (by decide)
      simp [hskip2]
    | cons f0 fs =>
      rcases hf0 : f0 with ⟨k, v⟩
      rw [hf0] at hfuel
      have hjf : jfuel (Json.obj ((k, v) :: fs)) = 2 + jfuel v + jfuelFields fs := by
        simp [jfuel, jfuelFields]
        omega
      have hfv : jfuel v + jfuelFields fs ≤ f := by omega
      have hobj := parseObjFields_emit fs k v d f [] ('\n' :: jInd (d + 1)) rest hfv
        (by
          intro c hc
          rcases List.mem_cons.mp hc with rfl | hc
          · rfl
          · exact jInd_ws _ c hc)
      simp only [List.cons_append, List.append_assoc, List.nil_append] at hobj
      have hskip : skipWs (w ++ (emitJson d (.obj ((k, v) :: fs)) ++ rest)) =
          '\x7b' :: ('\n' :: (jInd (d + 1) ++ (jStrLit k ++ ':' :: ' ' ::
            (emitJson (d + 1) v ++ (emitFieldsRest (d + 1) fs ++
              '\n' :: (jInd d ++ ('\x7d' :: rest))))))) := by
        rw [skipWs_append_ws hw]
        simp only [emitJson, List.cons_append, List.append_assoc]
        exact skipWs_cons_of_not_ws (by decide)
      simp only [parseVal, hskip]
      rw [if_neg (by decide : ¬('\x7b' : Char) = 'n'),
        if_neg (by decide : ¬('\x7b' : Char) = 't'),
        if_neg (by decide : ¬('\x7b' : Char) = 'f'),
        if_neg (by decide : ¬('\x7b' : Char) = '"'),
        if_neg (by decide : ¬('\x7b' : Char) = '[')]
      simp only [if_true]
      have hskipT : skipWs ('\n' :: (jInd (d + 1) ++ (jStrLit k ++ ':' :: ' ' ::
          (emitJson (d + 1) v ++ (emitFieldsRest (d + 1) fs ++
            '\n' :: (jInd d ++ ('\x7d' :: rest))))))) =
          '"' :: (jEscape k ++ ('"' :: ':' :: ' ' ::
            (emitJson (d + 1) v ++ (emitFieldsRest (d + 1) fs ++
              '\n' :: (jInd d ++ ('\x7d' :: rest)))))) := by
        rw [show ('\n' :: (jInd (d + 1) ++ (jStrLit k ++ ':' :: ' ' ::
            (emitJson (d + 1) v ++ (emitFieldsRest (d + 1) fs ++
              '\n' :: (jInd d ++ ('\x7d' :: rest))))))) =
            ('\n' :: jInd (d + 1)) ++ (jStrLit k ++ ':' :: ' ' ::
            (emitJson (d + 1) v ++ (emitFieldsRest (d + 1) fs ++
              '\n' :: (jInd d ++ ('\x7d' :: rest))))) by simp]
        rw [skipWs_append_ws (by
          intro c hc
          rcases List.mem_cons.mp hc with rfl | hc
          · rfl
          · exact jInd_ws _ c hc)]
        simp only [jStrLit, List.cons_append, List.append_assoc]
        exact skipWs_cons_of_not_ws (by decide)
      rw [hskipT]
      simp only [if_neg (by decide : ¬('"' : Char) = '\x7d')]
      rw [hobj]
termination_by sizeOf v
decreasing_by
all_goals simp_wf
all_goals subst_vars
all_goals (try simp)
all_goals (try omega)

theorem parseArrTail_emit (xs : List Json) :
    ∀ (d fuel : Nat) (acc : List Json) (rest : List Char), jfuelList xs ≤ fuel →
      parseArrTail fuel
        (emitItemsRest (d + 1) xs ++ '\n' :: (jInd d ++ ']' :: rest)) acc =
        some (.arr (acc ++ xs), rest) := by
  intro d fuel acc rest hfuel
  cases fuel with
  | zero =>
    have hpos : 1 ≤ jfuelList xs := by
      cases xs <;> simp [jfuelList] <;> omega
    omega
  | succ f =>
  cases xs with
  | nil =>
    simp only [emitItemsRest, List.nil_append, parseArrTail]
    have hskip : skipWs ('\n' :: (jInd d ++ ']' :: rest)) = ']' :: rest := by
      rw [show ('\n' :: (jInd d ++ ']' :: rest)) =
          ('\n' :: jInd d) ++ (']' :: rest) by simp]
      rw [skipWs_append_ws (by
        intro c hc
        rcases List.mem_cons.mp hc with rfl | hc
        · rfl
        · exact jInd_ws _ c hc)]
      exact skipWs_cons_of_not_ws (by decide)
    rw [hskip]
    simp
  | cons x xs =>
    have hjf : jfuelList (x :: xs) = 1 + jfuel x + jfuelList xs := by
      simp [jfuelList]
    have hfx : jfuel x ≤ f := by omega
    have hfxs : jfuelList xs ≤ f := by omega
    have hA : ∀ c, (emitItemsRest (d + 1) xs ++
        '\n' :: (jInd d ++ ']' :: rest)).head? = some c → isDigitChar c = false := by
      cases xs with
      | nil =>
        intro c hc
        simp [emitItemsRest] at hc
        rw [← hc]
        decide
      | cons y ys =>
        intro c hc
        simp [emitItemsRest] at hc
        rw [← hc]
        decide
    have hx := parseVal_emit x (d + 1) f ('\n' :: jInd (d + 1))
      (emitItemsRest (d + 1) xs ++ '\n' :: (jInd d ++ ']' :: rest)) hfx
      (by
        intro c hc
        rcases List.mem_cons.mp hc with rfl | hc
        · rfl
        · exact jInd_ws _ c hc) hA
    simp only [List.cons_append, List.append_assoc] at hx
    have htail := parseArrTail_emit xs d f (acc ++ [x]) rest hfxs
    simp only [emitItemsRest, List.cons_append, List.append_assoc, parseArrTail]
    rw [skipWs_cons_of_not_ws (by decide : isWsChar ',' = false)]
    simp only [if_true]
    rw [hx]
    simp [htail]
termination_by sizeOf xs
decreasing_by
all_goals simp_wf
all_goals subst_vars
all_goals (try simp)
all_goals (try omega)

theorem parseObjFields_emit (fs : List (JStr × Json)) (k : JStr) (v : Json) :
    ∀ (d fuel : Nat) (acc : List (JStr × Json)) (w rest : List Char),
      jfuel v + jfuelFields fs ≤ fuel →
      (∀ c ∈ w, isWsChar c = true) →
      parseObjFields fuel
        (w ++ jStrLit k ++ ':' :: ' ' :: emitJson (d + 1) v ++
          emitFieldsRest (d + 1) fs ++ '\n' :: (jInd d ++ '\x7d' :: rest)) acc =
        some (.obj (acc ++ (k, v) :: fs), rest) := by
  intro d fuel acc w rest hfuel hw
  cases fuel with
  | zero =>
    have := jfuel_pos v
    omega
  | succ f =>
  have hfv : jfuel v ≤ f := by
    have hpos : 1 ≤ jfuelFields fs := by
      cases fs with
      | nil => simp [jfuelFields]
      | cons g gs =>
        obtain ⟨a, b⟩ := g
        simp [jfuelFields]
        omega
    omega
  simp only [List.cons_append, List.append_assoc]
  have hskip : skipWs (w ++ (jStrLit k ++ ':' :: ' ' ::
      (emitJson (d + 1) v ++ (emitFieldsRest (d + 1) fs ++
        '\n' :: (jInd d ++ '\x7d' :: rest))))) =
      '"' :: (jEscape k ++ ('"' :: ':' :: ' ' ::
        (emitJson (d + 1) v ++ (emitFieldsRest (d + 1) fs ++
          '\n' :: (jInd d ++ '\x7d' :: rest))))) := by
    rw [skipWs_append_ws hw]
    simp only [jStrLit, List.cons_append, List.append_assoc]
    exact skipWs_cons_of_not_ws (by decide)
  simp only [parseObjFields, hskip]
  simp only [if_true]
  rw [parseStringBody_escape k _ _ (by
    have h1 := jEscape_length k
    simp only [List.length_append, List.length_cons]
    omega)]
  have hskip2 : skipWs (':' :: ' ' :: (emitJson (d + 1) v ++
      (emitFieldsRest (d + 1) fs ++ '\n' :: (jInd d ++ '\x7d' :: rest)))) =
      ':' :: ' ' :: (emitJson (d + 1) v ++
        (emitFieldsRest (d + 1) fs ++ '\n' :: (jInd d ++ '\x7d' :: rest))) :=
    skipWs_cons_of_not_ws (by decide)
  simp only [hskip2, if_true]
  have hv := parseVal_emit v (d + 1) f [' ']
    (emitFieldsRest (d + 1) fs ++ '\n' :: (jInd d ++ '\x7d' :: rest)) hfv
    (by
      intro c hc
      rcases List.mem_cons.mp hc with rfl | hc2
      · rfl
      · simp at hc2)
    (by
      cases fs with
      | nil =>
        intro c hc
        simp [emitFieldsRest] at hc
        rw [← hc]
        decide
      | cons g gs =>
        obtain ⟨a, b⟩ := g
        intro c hc
        simp [emitFieldsRest] at hc
        rw [← hc]
        decide)
  simp only [List.cons_append, List.append_assoc, List.nil_append] at hv
  rw [hv]
  cases fs with
  | nil =>
    simp only [emitFieldsRest, List.nil_append]
    have hskip3 : skipWs ('\n' :: (jInd d ++ '\x7d' :: rest)) = '\x7d' :: rest := by
      rw [show ('\n' :: (jInd d ++ '\x7d' :: rest)) =
          ('\n' :: jInd d) ++ ('\x7d' :: rest) by simp]
      rw [skipWs_append_ws (by
        intro c hc
        rcases List.mem_cons.mp hc with rfl | hc
        · rfl
        · exact jInd_ws _ c hc)]
      exact skipWs_cons_of_not_ws (by decide)
    rw [hskip3]
    simp
  | cons g gs =>
    rcases hg : g with ⟨k2, v2⟩
    rw [hg] at hfuel
    have hjff : jfuelFields ((k2, v2) :: gs) = 1 + jfuel v2 + jfuelFields gs := by
      simp [jfuelFields]
    have hb2 : jfuel v2 + jfuelFields gs ≤ f := by omega
    have hrec := parseObjFields_emit gs k2 v2 d f (acc ++ [(k, v)])
      ('\n' :: jInd (d + 1)) rest hb2
      (by
        intro c hc
        rcases List.mem_cons.mp hc with rfl | hc
        · rfl
        · exact jInd_ws _ c hc)
    simp only [List.cons_append, List.append_assoc] at hrec
    simp only [emitFieldsRest, List.cons_append, List.append_assoc]
    rw [skipWs_cons_of_not_ws (by decide : isWsChar ',' = false)]
    simp only [if_true]
    rw [hrec]
    simp
termination_by sizeOf v + sizeOf fs
decreasing_by
all_goals simp_wf
all_goals subst_vars
all_goals (try simp)
all_goals (try omega)
all_goals (cases fs <;> simp <;> omega)

end

/-- Rendering a natural with positive fuel yields at least one digit. -/
theorem natToCharsF_len (f n : Nat) : 1 ≤ (natToCharsF (f + 1) n).length := by
  simp only [natToCharsF]
  split
  · simp
  · simp

/-- Rendering an integer always yields at least one char. -/
theorem intToChars_len (i : Int) : 1 ≤ (intToChars i).length := by
  unfold intToChars
  split
  · simp
  · exact natToCharsF_len _ _

mutual

/-- The serialized form of a value is at least as long as its parse fuel. -/
theorem jfuel_le_emit (v : Json) : ∀ d : Nat, jfuel v ≤ (emitJson d v).length := by
  intro d
  cases v with
  | null => simp [jfuel, emitJson]
  | bool b => cases b <;> simp [jfuel, emitJson]
  | num n => simpa [jfuel, emitJson] using intToChars_len n
  | str s => simp [jfuel, emitJson, jStrLit]
  | arr xs =>
    cases xs with
    | nil => simp [jfuel, jfuelList, emitJson]
    | cons x tail =>
      have h1 := jfuel_le_emit x (d + 1)
      have h2 := jfuelList_le_emit tail (d + 1)
      simp only [jfuel, jfuelList, emitJson, List.length_cons, List.length_append]
      omega
  | obj fs =>
    cases fs with
    | nil => simp [jfuel, jfuelFields, emitJson]
    | cons f0 tail =>
      rcases hf0 : f0 with ⟨k, v0⟩
      have h1 := jfuel_le_emit v0 (d + 1)
      have h2 := jfuelFields_le_emit tail (d + 1)
      simp only [jfuel, jfuelFields, emitJson, List.length_cons, List.length_append]
      omega
termination_by sizeOf v
decreasing_by
all_goals simp_wf
all_goals subst_vars
all_goals (try simp)
all_goals (try omega)

/-- Array continuation: fuel for the remaining items. -/
theorem jfuelList_le_emit (xs : List Json) :
    ∀ d : Nat, jfuelList xs ≤ (emitItemsRest d xs).length + 1 := by
  intro d
  cases xs with
  | nil => simp [jfuelList, emitItemsRest]
  | cons x tail =>
    have h1 := jfuel_le_emit x d
    have h2 := jfuelList_le_emit tail d
    simp only [jfuelList, emitItemsRest, List.length_cons, List.length_append]
    omega
termination_by sizeOf xs
decreasing_by
all_goals simp_wf
all_goals subst_vars
all_goals (try simp)
all_goals (try omega)

/-- Object continuation: fuel for the remaining fields. -/
theorem jfuelFields_le_emit (fs : List (JStr × Json)) :
    ∀ d : Nat, jfuelFields fs ≤ (emitFieldsRest d fs).length + 1 := by
  intro d
  cases fs with
  | nil => simp [jfuelFields, emitFieldsRest]
  | cons f0 tail =>
    rcases hf0 : f0 with ⟨k, v0⟩
    have h1 := jfuel_le_emit v0 d
    have h2 := jfuelFields_le_emit tail d
    simp only [jfuelFields, emitFieldsRest, List.length_cons, List.length_append]
    omega
termination_by sizeOf fs
decreasing_by
all_goals simp_wf
all_goals subst_vars
all_goals (try simp)
all_goals (try omega)

end

/-- Parsing the pretty-printed serialization of any value recovers it. -/
theorem jsonParse_emitJson (v : Json) : jsonParse (emitJson 0 v) = some v := by
  have h := parseVal_emit v 0 ((emitJson 0 v).length + 1) [] []
    (by have := jfuel_le_emit v 0; omega)
    (by intro c hc; simp at hc)
    (by intro c hc; simp at hc)
  simp only [List.nil_append, List.append_nil] at h
  simp [jsonParse, h, skipWs]

/-- C7: JSON round-trip fidelity — serializing any post collection with
`PostExporter.exportJSON` (i.e. `JSON.stringify(posts, null, 2)`) and
re-parsing the produced text with `JSON.parse` yields exactly the
in-memory collection; in particular this holds for collections of posts
carrying the augmented `coverImageLocalPath` and `localImagePaths`
fields, whose serialized form is `encodePost`. -/
theorem c7_json_roundtrip :
    (∀ posts : List Json,
      jsonParse (PostExporter.exportJSON posts) = some (.arr posts)) ∧
    (∀ ps : List WixBlogPost,
      jsonParse (PostExporter.exportJSON (ps.map encodePost)) =
        some (.arr (ps.map encodePost))) := by
  refine ⟨fun posts => ?_, fun ps => ?_⟩
  · exact jsonParse_emitJson (.arr posts)
  · exact jsonParse_emitJson (.arr (ps.map encodePost))
